import Mathlib

/-!
# Source-map and coverage visualisers of `utils.mjs`

A shallow embedding of the formatting code in `src/utils.mjs`
(`writeMappings`, `writeRemapping`, `writeCoverageRemappings`,
`existsInSources`, `normalizeLocation`) together with the properties the
specification states about it.

Conventions of the embedding

* JavaScript text is a list of characters (`Str`); one `Char` stands for one
  UTF-16 code unit, which is what `charAt`, `length` and `split` count.
* The numbers that occur as lines, columns and hit counts are integers well
  inside the exactly representable range, so `Val.num` carries an `Int`; the
  other `Val` constructors are the non-finite numbers and `undefined`.
* A JavaScript object whose keys are not integer-like is an association list in
  insertion order (`Obj`), which is also its enumeration order.
* External library calls are not embedded: the decoded mapping (the result of
  `decode`) is an input, and `codeFrameColumns` is a parameter.
* A thrown exception is `Except.error`.
-/

namespace SwcIstanbul

/-! ## Values, strings, objects, arrays -/

/-- Text: a sequence of UTF-16 code units. -/
abbrev Str := List Char

/-- The values stored in line, column and hit-count positions: `undefined`
or a JavaScript number (an integer, `NaN`, or an infinity). -/
inductive Val where
  | undefined
  | nan
  | num (n : Int)
  | infinity
  | negInfinity
  deriving DecidableEq, Repr

/-- The exceptions the embedded code can raise. -/
inductive JsError where
  | typeError
  deriving DecidableEq, Repr

/-- `ToNumber` on the values of `Val`: `undefined` becomes `NaN`. -/
def Val.toNumber : Val → Val
  | .undefined => .nan
  | v => v

/-- The expression `1 + x` for `x` a number or `undefined`. -/
def Val.onePlus (x : Val) : Val :=
  match x.toNumber with
  | .num n => .num (1 + n)
  | v => v

/-- The expression `x - 1` for `x` a number or `undefined`. -/
def Val.minusOne (x : Val) : Val :=
  match x.toNumber with
  | .num n => .num (n - 1)
  | v => v

/-- The expression `a - b` on numbers (with `undefined` coerced to `NaN`). -/
def Val.sub (a b : Val) : Val :=
  match a.toNumber, b.toNumber with
  | .num m, .num n => .num (m - n)
  | .num _, .infinity => .negInfinity
  | .num _, .negInfinity => .infinity
  | .infinity, .num _ => .infinity
  | .infinity, .negInfinity => .infinity
  | .negInfinity, .num _ => .negInfinity
  | .negInfinity, .infinity => .negInfinity
  | _, _ => .nan

/-- The test `x > 0` for `x` a number or `undefined`. -/
def Val.gtZero (x : Val) : Bool :=
  match x.toNumber with
  | .num n => decide (0 < n)
  | .infinity => true
  | _ => false

/-- Number-to-string conversion as performed by a template literal. -/
def Val.render : Val → Str
  | .undefined => "undefined".toList
  | .nan => "NaN".toList
  | .num n => (toString n).toList
  | .infinity => "Infinity".toList
  | .negInfinity => "-Infinity".toList

/-- An object with string keys, as the list of its properties in insertion
order. -/
abbrev Obj (β : Type) := List (String × β)

/-- Property read `o[k]`; `none` is `undefined`. -/
def objGet {β : Type} (o : Obj β) (k : String) : Option β :=
  match o with
  | [] => none
  | (k', v) :: rest => if k' = k then some v else objGet rest k

/-- Property write `o[k] = v` on a fresh copy: an existing key keeps its place,
a new key goes last. This is also `{...o, [k]: v}`. -/
def objSet {β : Type} (o : Obj β) (k : String) (v : β) : Obj β :=
  match o with
  | [] => [(k, v)]
  | (k', v') :: rest => if k' = k then (k', v) :: rest else (k', v') :: objSet rest k v

/-- A line/column position object such as `{line: 3, column: 7}`. -/
abbrev Position := Obj Val

/-- Field read `p.line`, `p.column`: an absent property reads `undefined`. -/
def Position.field (p : Position) (k : String) : Val :=
  (objGet p k).getD .undefined

/-- A JavaScript array that may have holes: `none` is a hole (it reads
`undefined`). -/
abbrev JsArray (α : Type) := List (Option α)

/-- Element read `a[i]`. -/
def JsArray.read {α : Type} (a : JsArray α) (i : Nat) : Option α :=
  (a.get? i).join

/-- Element write `a[i] = v`; writing past the end leaves holes in between. -/
def JsArray.write {α : Type} (a : JsArray α) (i : Nat) (v : α) : JsArray α :=
  match a, i with
  | [], 0 => [some v]
  | [], i + 1 => none :: JsArray.write [] i v
  | _ :: rest, 0 => some v :: rest
  | x :: rest, i + 1 => x :: JsArray.write rest i v

/-! ## Decoded mappings -/

/-- A decoded segment, the array
`[generatedColumn, sourceIndex, originalLine, originalColumn, nameIndex?]`. -/
abbrev Segment := List Int

/-- Element read `seg[i]` of a segment; a missing field is `undefined`. -/
def Segment.at (seg : Segment) (i : Nat) : Val :=
  match seg.get? i with
  | some n => .num n
  | none => .undefined

/-- `Array.prototype.reduce` with the index argument, from index `i` on. -/
def reduceFrom {α β : Type} (f : β → α → Nat → β) : Nat → β → List α → β
  | _, acc, [] => acc
  | i, acc, x :: xs => reduceFrom f (i + 1) (f acc x i) xs

/-- The reducer of the pairing step of `writeRemapping`:
`entry = all[pairIndex] || []; entry.push(current); all[pairIndex] = entry`. -/
def pairStep (all : JsArray (List Segment)) (current : Segment) (index : Nat) :
    JsArray (List Segment) :=
  let pairIndex := index / 2
  let entry := (all.read pairIndex).getD []
  let entry := entry ++ [current]
  all.write pairIndex entry

/-- The array `mappingPairs` of `writeRemapping` for one generated line. -/
def mappingPairs (mappings : List Segment) : JsArray (List Segment) :=
  reduceFrom pairStep 0 [] mappings

/-- The loop head `for (const [start, end] of mappingPairs)`: destructuring one
element. A hole cannot be destructured; a missing `end` is `undefined`; a
missing `start` is used in `start[0]` right away, which throws. -/
def destructurePair (e : Option (List Segment)) : Except JsError (Segment × Option Segment) :=
  match e with
  | none => .error .typeError
  | some [] => .error .typeError
  | some (start :: rest) => .ok (start, rest.head?)

/-- A location handed to `codeFrameColumns`: a start and an optional end. -/
structure FrameLocation where
  start : Position
  end_ : Option Position
  deriving DecidableEq, Repr

/-- The object `generatedPosition` of `writeRemapping`. -/
def generatedPosition (generatedRowIndex : Nat) (start : Segment) (end_ : Option Segment) :
    FrameLocation :=
  { start := [("line", (Val.num generatedRowIndex).onePlus), ("column", (start.at 0).onePlus)]
    end_ := end_.map fun e =>
      [("line", (Val.num generatedRowIndex).onePlus), ("column", (e.at 0).onePlus)] }

/-- The object `sourcePosition` of `writeRemapping`. -/
def sourcePosition (start : Segment) (end_ : Option Segment) : FrameLocation :=
  { start := [("line", (start.at 2).onePlus), ("column", (start.at 3).onePlus)]
    end_ := end_.map fun e => [("line", (e.at 2).onePlus), ("column", (e.at 3).onePlus)] }

/-! ## Text helpers -/

/-- The host platforms, which fix the line separator `EOL` of `node:os`. -/
inductive Platform where
  | posix
  | win32
  deriving DecidableEq, Repr

/-- The constant `EOL`: a line feed on POSIX, carriage return and line feed on
Windows. -/
def EOL : Platform → Str
  | .posix => ['\n']
  | .win32 => ['\r', '\n']

/-- Scanning loop of `String.prototype.split` for a non-empty separator:
`skip` counts the code units of a matched separator still to be passed over,
`cur` is the piece collected so far. -/
def splitGo (sep : Str) : Nat → Str → Str → List Str
  | _, cur, [] => [cur]
  | skip + 1, cur, _ :: t => splitGo sep skip cur t
  | 0, cur, c :: t =>
    if sep.isPrefixOf (c :: t) then cur :: splitGo sep (sep.length - 1) [] t
    else splitGo sep 0 (cur ++ [c]) t

/-- The call `s.split(sep)` for a non-empty separator `sep`. -/
def jsSplit (sep : Str) (s : Str) : List Str :=
  splitGo sep 0 [] s

/-- Element read `rows[i]` where the index is a number: only an integer within
bounds names an element, anything else reads `undefined`. -/
def rowAt (rows : List Str) (i : Val) : Option Str :=
  match i with
  | .num n => if 0 ≤ n then rows.get? n.toNat else none
  | _ => none

/-- The call `row.charAt(pos)`: the position is converted to an integer (`NaN`
and `undefined` become 0); out of range gives the empty string. -/
def charAt (row : Str) (pos : Val) : Str :=
  match pos.toNumber with
  | .num n => if 0 ≤ n then (row.get? n.toNat).toList else []
  | .nan => (row.get? 0).toList
  | _ => []

/-- White space and line terminators, the code units `trim` strips. -/
def isTrimmable (c : Char) : Bool :=
  let n := c.toNat
  n = 0x09 || n = 0x0A || n = 0x0B || n = 0x0C || n = 0x0D || n = 0x20 || n = 0xA0 ||
  n = 0x1680 || (0x2000 ≤ n && n ≤ 0x200A) || n = 0x2028 || n = 0x2029 || n = 0x202F ||
  n = 0x205F || n = 0x3000 || n = 0xFEFF

/-- The call `s.trim()`. -/
def jsTrim (s : Str) : Str :=
  ((s.dropWhile isTrimmable).reverse.dropWhile isTrimmable).reverse

/-- Value of a string of decimal digits read from the left, starting from
`acc`. -/
def digitsValue (acc : Nat) (cs : List Char) : Nat :=
  cs.foldl (fun acc c => 10 * acc + (c.toNat - 48)) acc

/-- The call `parseInt(s)` on a string of decimal digits, which is what the
keys of an array are. -/
def parseInt (s : String) : Nat :=
  digitsValue 0 s.toList

/-- The string `"_".repeat(80)`. -/
def underscores : Str := List.replicate 80 '_'

/-- The argument of `join` in both report writers:
two line breaks, 80 underscores, two line breaks. -/
def separator (p : Platform) : Str :=
  EOL p ++ EOL p ++ underscores ++ EOL p ++ EOL p

/-- The numbering pass `.map((row, index) => "## " + (1 + index) + " " + row.trim())`,
from index `i` on. -/
def numberRows : Nat → List Str → List Str
  | _, [] => []
  | i, row :: rest =>
    ("## ".toList ++ (toString (1 + i)).toList ++ " ".toList ++ jsTrim row) :: numberRows (i + 1) rest

/-- The call `rows.join(sep)`: the empty string for no row, and otherwise the
rows in order with `sep` in front of every row but the first. -/
def jsJoin (sep : Str) : List Str → Str
  | [] => []
  | [row] => row
  | row :: next :: rest => row ++ sep ++ jsJoin sep (next :: rest)

/-! ## `existsInSources` -/

/-- The function `existsInSources(sources, { start })`. Calling `split` on an
undefined `sources`, or `charAt` on an undefined row, throws a `TypeError`. -/
def existsInSources (p : Platform) (sources : Option Str) (loc : FrameLocation) :
    Except JsError Bool :=
  match sources with
  | none => .error .typeError
  | some src =>
    let rows := jsSplit (EOL p) src
    match rowAt rows (loc.start.field "line").minusOne with
    | none => .error .typeError
    | some row =>
      let startCharacter := charAt row (loc.start.field "column").minusOne
      .ok (startCharacter.length != 0)

/-! ## `writeMappings` -/

/-- The pairs of `Object.entries(decoded)` for a dense array, from index `i` on:
the key of element `i` is the decimal string of `i`. -/
def objectEntries {α : Type} : Nat → List α → List (String × α)
  | _, [] => []
  | i, x :: xs => (toString i, x) :: objectEntries (i + 1) xs

/-- The reducer of `writeMappings`: an empty line leaves the object as it is,
any other line is stored under its label. -/
def labelStep (all : Obj (List Segment)) (entry : String × List Segment) : Obj (List Segment) :=
  if entry.2.length = 0 then all
  else objSet all ("Line " ++ toString (1 + parseInt entry.1)) entry.2

/-- The object `withLineNumbers` that `writeMappings` hands to
`writeGeneratedFile` for the decoded mapping `decoded`. -/
def writeMappings (decoded : List (List Segment)) : Obj (List Segment) :=
  (objectEntries 0 decoded).foldl labelStep []

/-! ## `writeRemapping` -/

/-- The optional tail `" to (line, column)"` of a position heading. -/
def rangeTail (end_ : Option Position) : Str :=
  match end_ with
  | some e =>
    " to (".toList ++ (e.field "line").render ++ ", ".toList ++ (e.field "column").render ++
      ")".toList
  | none => []

/-- The template literal pushed to `markdownRows` for one pair. -/
def remapTemplate (sourcePos generatedPos : FrameLocation) (isPresent : Bool)
    (sourceCodeFrame generatedCodeFrame : Str) : Str :=
  "\nSource, (".toList ++ (sourcePos.start.field "line").render ++ ", ".toList ++
    (sourcePos.start.field "column").render ++ ")".toList ++ rangeTail sourcePos.end_ ++
    ":\nExists in sources? ".toList ++ (if isPresent then "Yes ✅" else "No ❌").toList ++
    "\n\n```js\n".toList ++ sourceCodeFrame ++ "\n```\n\nGenerated, (".toList ++
    (generatedPos.start.field "line").render ++ ", ".toList ++
    (generatedPos.start.field "column").render ++ ")".toList ++ rangeTail generatedPos.end_ ++
    ":\n\n```js\n".toList ++ generatedCodeFrame ++ "\n```\n".toList

/-- The body of the inner loop of `writeRemapping` for one pair: both positions,
both code frames, the existence check, and the rendered row. With `sources`
undefined the body throws (at the latest in `existsInSources`). -/
def remapRow (p : Platform) (codeFrameColumns : Str → FrameLocation → Str) (generated : Str)
    (sources : Option Str) (generatedRowIndex : Nat) (start : Segment) (end_ : Option Segment) :
    Except JsError Str :=
  let generatedPos := generatedPosition generatedRowIndex start end_
  let sourcePos := sourcePosition start end_
  match sources with
  | none => .error .typeError
  | some src =>
    let generatedCodeFrame := codeFrameColumns generated generatedPos
    let sourceCodeFrame := codeFrameColumns src sourcePos
    match existsInSources p (some src) sourcePos with
    | .error e => .error e
    | .ok isPresent =>
      .ok (remapTemplate sourcePos generatedPos isPresent sourceCodeFrame generatedCodeFrame)

/-- The inner loop `for (const [start, end] of mappingPairs)`, pushing to
`markdownRows`. -/
def pairLoop (p : Platform) (codeFrameColumns : Str → FrameLocation → Str) (generated : Str)
    (sources : Option Str) (generatedRowIndex : Nat) :
    JsArray (List Segment) → List Str → Except JsError (List Str)
  | [], markdownRows => .ok markdownRows
  | e :: rest, markdownRows =>
    match destructurePair e with
    | .error err => .error err
    | .ok (start, end_) =>
      match remapRow p codeFrameColumns generated sources generatedRowIndex start end_ with
      | .error err => .error err
      | .ok row =>
        pairLoop p codeFrameColumns generated sources generatedRowIndex rest (markdownRows ++ [row])

/-- The outer loop `for (const [generatedRowIndex, mappings] of
decodedMappings.entries())`, from row index `generatedRowIndex` on. -/
def lineLoop (p : Platform) (codeFrameColumns : Str → FrameLocation → Str) (generated : Str)
    (sources : Option Str) : Nat → List (List Segment) → List Str → Except JsError (List Str)
  | _, [], markdownRows => .ok markdownRows
  | generatedRowIndex, mappings :: rest, markdownRows =>
    match pairLoop p codeFrameColumns generated sources generatedRowIndex (mappingPairs mappings)
        markdownRows with
    | .error err => .error err
    | .ok markdownRows =>
      lineLoop p codeFrameColumns generated sources (generatedRowIndex + 1) rest markdownRows

/-- The numbered entries of the report of `writeRemapping`, before `join`. -/
def remappingEntries (p : Platform) (codeFrameColumns : Str → FrameLocation → Str)
    (generated : Str) (decodedMappings : List (List Segment))
    (sourcesContent : List (Option Str)) :
    Except JsError (List Str) :=
  let sources := sourcesContent.head?.join
  match lineLoop p codeFrameColumns generated sources 0 decodedMappings [] with
  | .error err => .error err
  | .ok markdownRows => .ok (numberRows 0 markdownRows)

/-- The function `writeRemapping(namePrefix, generated, sourcemap)`: the text
it writes to the `.remapped.md` artifact. The source map enters through its
decoded `mappings` and its `sourcesContent`, an array whose entries are strings
or `null` (`none`); `const [sources] = sourcemap.sourcesContent` takes the first
entry, `undefined` when there is none. -/
def writeRemapping (p : Platform) (codeFrameColumns : Str → FrameLocation → Str)
    (generated : Str) (decodedMappings : List (List Segment))
    (sourcesContent : List (Option Str)) :
    Except JsError Str :=
  match remappingEntries p codeFrameColumns generated decodedMappings sourcesContent with
  | .error err => .error err
  | .ok entries => .ok (jsJoin (separator p) entries)

/-! ## `normalizeLocation` and `writeCoverageRemappings` -/

/-- A coverage location `{ start, end }`. -/
structure Range where
  start : Position
  end_ : Position
  deriving DecidableEq, Repr

/-- The expression `p.column === Infinity ? undefined : p.column`. -/
def normalizedColumn (p : Position) : Val :=
  if p.field "column" = .infinity then .undefined else p.field "column"

/-- The function `normalizeLocation({ start, end })`; each result object is
`{...p, column: normalizedColumn p}`. -/
def normalizeLocation (loc : Range) : Range :=
  { start := objSet loc.start "column" (normalizedColumn loc.start)
    end_ := objSet loc.end_ "column" (normalizedColumn loc.end_) }

/-- A `Range` as the location argument of `codeFrameColumns`. -/
def Range.toFrameLocation (loc : Range) : FrameLocation :=
  { start := loc.start, end_ := some loc.end_ }

/-- The `data` of a file coverage. Each map is the list of its entries in the
order `Object.entries` enumerates them. Of a branch or function entry only
`loc` is read; a `b` value is the array of the per-path counters. -/
structure FileCoverageData where
  statementMap : Obj Range
  s : Obj Val
  branchMap : Obj Range
  b : Obj (List Nat)
  fnMap : Obj Range
  f : Obj Val

/-- An element of `markdownRowsWithLine`. -/
structure MarkdownRow where
  line : Val
  content : Str
  deriving DecidableEq, Repr

/-- The call `counters.toString()` of an array of counters: the decimal
numbers joined by commas. -/
def arrayToString (counters : List Nat) : Str :=
  List.intercalate [','] (counters.map fun n => (toString n).toList)

/-- String-to-number conversion on the strings `arrayToString` produces
(digits and commas): the empty string is 0, a run of digits is its decimal
value, and a string with a comma is not a numeric literal, hence `NaN`. -/
def stringToNumber (s : Str) : Val :=
  if s.all Char.isDigit then .num (digitsValue 0 s) else .nan

/-- The test `statementHits[key] > 0` (and `fnHits[key] > 0`) on a table of
numbers. -/
def numberHit (hits : Obj Val) (key : String) : Bool :=
  ((objGet hits key).getD .undefined).gtZero

/-- The test `branchHits[key] > 0` on the table of counter arrays: the array is
converted to a primitive (its string), then to a number. -/
def branchHit (hits : Obj (List Nat)) (key : String) : Bool :=
  match objGet hits key with
  | none => false
  | some counters => (stringToNumber (arrayToString counters)).gtZero

/-- The template literal `content` of the three loops. -/
def coverageTemplate (kind : String) (hit : Bool) (frame : Str) : Str :=
  "\n".toList ++ kind.toList ++ "\nHit: ".toList ++ (if hit then "Yes ✅" else "No ❌").toList ++
    "\n\n```js\n".toList ++ frame ++ "\n```\n".toList

/-- The body of each of the three loops for one map entry. -/
def coverageRow (codeFrameColumns : Str → FrameLocation → Str) (code : Str) (kind : String)
    (hit : Bool) (loc : Range) : MarkdownRow :=
  let frame := codeFrameColumns code (normalizeLocation loc).toFrameLocation
  { line := loc.start.field "line", content := coverageTemplate kind hit frame }

/-- The array `markdownRowsWithLine` after the three loops: statements, then
branches, then functions. -/
def collectRows (codeFrameColumns : Str → FrameLocation → Str) (data : FileCoverageData)
    (code : Str) : List MarkdownRow :=
  let statements := data.statementMap.map fun (key, loc) =>
    coverageRow codeFrameColumns code "Statement" (numberHit data.s key) loc
  let branches := data.branchMap.map fun (key, loc) =>
    coverageRow codeFrameColumns code "Branch" (branchHit data.b key) loc
  let functions := data.fnMap.map fun (key, loc) =>
    coverageRow codeFrameColumns code "Function" (numberHit data.f key) loc
  statements ++ branches ++ functions

/-- Insertion of `x` in front of the first element it does not compare greater
than. -/
def insertByCompare {α : Type} (compare : α → α → Val) (x : α) : List α → List α
  | [] => [x]
  | y :: ys =>
    if (compare x y).gtZero then y :: insertByCompare compare x ys else x :: y :: ys

/-- The call `rows.sort(compare)`. The language requires the sort to be stable,
so for a comparator that is a consistent ordering the result is determined; it
is computed here by insertion from the right. For an inconsistent comparator
(a line that is not a number) the language leaves the order to the engine, and
the theorems below assume numeric lines. -/
def jsSort {α : Type} (compare : α → α → Val) : List α → List α
  | [] => []
  | x :: xs => insertByCompare compare x (jsSort compare xs)

/-- The comparator `(a, b) => a.line - b.line`. -/
def compareLine (a b : MarkdownRow) : Val :=
  a.line.sub b.line

/-- The array `markdownRows` of `writeCoverageRemappings`: the collected rows
sorted by line, reduced to their contents. -/
def sortedRows (codeFrameColumns : Str → FrameLocation → Str) (data : FileCoverageData)
    (code : Str) : List MarkdownRow :=
  jsSort compareLine (collectRows codeFrameColumns data code)

/-- The numbered entries of the report of `writeCoverageRemappings`, before
`join`. -/
def coverageEntries (codeFrameColumns : Str → FrameLocation → Str) (data : FileCoverageData)
    (code : Str) : List Str :=
  numberRows 0 ((sortedRows codeFrameColumns data code).map fun row => row.content)

/-- The function `writeCoverageRemappings(namePrefix, coverageMap, code)`: the
text it writes to the `.coverage-remapped.md` artifact. -/
def writeCoverageRemappings (p : Platform) (codeFrameColumns : Str → FrameLocation → Str)
    (data : FileCoverageData) (code : Str) : Str :=
  jsJoin (separator p) (coverageEntries codeFrameColumns data code)

/-! ## Specification-side definitions -/

/-- Consecutive pairs, as the specification words the pairing step: the first
two segments, the next two, and so on; a last segment without a partner stands
alone. -/
def pairsSpec : List Segment → List (List Segment)
  | [] => []
  | [a] => [[a]]
  | a :: b :: rest => [a, b] :: pairsSpec rest

/-- Comparison of two segments by generated column (the first field); a
segment without a first field compares with nothing. -/
def genColumnLe (s t : Segment) : Bool :=
  match s.head?, t.head? with
  | some x, some y => decide (x ≤ y)
  | _, _ => false

/-- The segments of a line are ordered ascending by generated column. -/
def AscendingByGeneratedColumn (mappings : List Segment) : Prop :=
  mappings.Pairwise fun s t => genColumnLe s t = true

/-- The label of the generated line with 0-based index `i`, in the words of the
specification: "Line " followed by `i + 1`. -/
def lineLabel (i : Nat) : String :=
  "Line " ++ toString (i + 1)

/-- The elements of a list with their 0-based indices, from index `i` on. -/
def indexed {α : Type} : Nat → List α → List (Nat × α)
  | _, [] => []
  | i, x :: xs => (i, x) :: indexed (i + 1) xs

/-- The keyed mapping as the specification describes it: the lines with at
least one segment, in ascending line order, each under its label. -/
def keyedLinesSpec (decoded : List (List Segment)) : Obj (List Segment) :=
  ((indexed 0 decoded).filter fun entry => decide (entry.2 ≠ [])).map
    fun entry => (lineLabel entry.1, entry.2)

/-- Ascending order of two rows by start line, for lines that are numbers. -/
def LineLe (a b : MarkdownRow) : Prop :=
  ∃ m n : Int, a.line = .num m ∧ b.line = .num n ∧ m ≤ n

/-- The start line of every entry of a coverage map is a number. -/
def NumericLines (entries : Obj Range) : Prop :=
  ∀ kv ∈ entries, ∃ n : Int, kv.2.start.field "line" = .num n

/-- The coverage data of the specification example: statements at lines 3 and
1, a branch at line 2, a function at line 1. -/
def exampleCoverage : FileCoverageData :=
  { statementMap :=
      [("0", { start := [("line", .num 3), ("column", .num 0)]
               end_ := [("line", .num 3), ("column", .num 5)] }),
       ("1", { start := [("line", .num 1), ("column", .num 0)]
               end_ := [("line", .num 1), ("column", .infinity)] })]
    s := [("0", .num 1), ("1", .num 0)]
    branchMap :=
      [("0", { start := [("line", .num 2), ("column", .num 0)]
               end_ := [("line", .num 2), ("column", .num 4)] })]
    b := [("0", [1])]
    fnMap :=
      [("0", { start := [("line", .num 1), ("column", .num 2)]
               end_ := [("line", .num 1), ("column", .num 9)] })]
    f := [("0", .num 2)] }

/-- The pairs of one generated line in order, each with the line index `g`, its
pair index (counted from `k`), its start segment and its optional end
segment. -/
def linePairs (g : Nat) : Nat → List Segment → List (Nat × Nat × Segment × Option Segment)
  | _, [] => []
  | k, [a] => [(g, k, a, none)]
  | k, a :: b :: rest => (g, k, a, some b) :: linePairs g (k + 1) rest

/-- The pairs of a decoded mapping, line after line from line index `g` on:
increasing (generated line, pair index) order. -/
def allPairs : Nat → List (List Segment) → List (Nat × Nat × Segment × Option Segment)
  | _, [] => []
  | g, mappings :: rest => linePairs g 0 mappings ++ allPairs (g + 1) rest

/-- Rows appended one per item, in order; the first failing item fails the
whole. -/
def pushRows {κ : Type} (row : κ → Except JsError Str) : List κ → List Str →
    Except JsError (List Str)
  | [], acc => .ok acc
  | q :: qs, acc =>
    match row q with
    | .error err => .error err
    | .ok r => pushRows row qs (acc ++ [r])

/-- Strictly increasing (generated line, pair index). -/
def PairBefore (a b : Nat × Nat × Segment × Option Segment) : Prop :=
  a.1 < b.1 ∨ (a.1 = b.1 ∧ a.2.1 < b.2.1)

/-- Two segments that agree in every field but the source-file index (the
second field). -/
def SameExceptSourceIndex (s t : Segment) : Prop :=
  s.length = t.length ∧ ∀ i : Nat, i ≠ 1 → s[i]? = t[i]?

/-! ## The pairing step -/

theorem pairStep_pairsSpec (pre : List Segment) (x : Segment) :
    pairStep ((pairsSpec pre).map some) x pre.length = (pairsSpec (pre ++ [x])).map some := by
  induction pre using pairsSpec.induct with
  | case1 => simp [pairsSpec, pairStep, JsArray.read, JsArray.write]
  | case2 a => simp [pairsSpec, pairStep, JsArray.read, JsArray.write]
  | case3 a b rest ih =>
    have hdiv : (rest.length + 1 + 1) / 2 = rest.length / 2 + 1 := by omega
    simp only [pairStep, List.length_cons, hdiv] at ih ⊢
    simp only [pairsSpec, List.map_cons, List.cons_append, JsArray.read, JsArray.write,
      List.get?_cons_succ] at ih ⊢
    rw [ih]
    rfl

theorem reduceFrom_pairStep (rest pre : List Segment) :
    reduceFrom pairStep pre.length ((pairsSpec pre).map some) rest
      = (pairsSpec (pre ++ rest)).map some := by
  induction rest generalizing pre with
  | nil => simp [reduceFrom]
  | cons x xs ih =>
    have h := ih (pre ++ [x])
    simp only [List.length_append, List.length_singleton, List.append_assoc,
      List.singleton_append] at h
    simp only [reduceFrom, pairStep_pairsSpec, h]

theorem mappingPairs_eq_pairsSpec (mappings : List Segment) :
    mappingPairs mappings = (pairsSpec mappings).map some := by
  simpa [mappingPairs] using reduceFrom_pairStep mappings []

theorem pairsSpec_length (l : List Segment) : (pairsSpec l).length = (l.length + 1) / 2 := by
  induction l using pairsSpec.induct with
  | case1 => simp [pairsSpec]
  | case2 a => simp [pairsSpec]
  | case3 a b rest ih => simp only [pairsSpec, List.length_cons, ih]; omega

theorem pairsSpec_full (l : List Segment) (k : Nat) (a b : Segment)
    (ha : l[2 * k]? = some a) (hb : l[2 * k + 1]? = some b) :
    (pairsSpec l)[k]? = some [a, b] := by
  induction l using pairsSpec.induct generalizing k with
  | case1 => simp at ha
  | case2 c => cases k <;> simp at hb
  | case3 c d rest ih =>
    cases k with
    | zero => simp at ha hb; simp [pairsSpec, ha, hb]
    | succ k =>
      have h1 : 2 * (k + 1) = 2 * k + 1 + 1 := by ring
      rw [h1] at ha hb
      simp only [List.getElem?_cons_succ] at ha hb
      simpa [pairsSpec] using ih k ha hb

theorem pairsSpec_last (l : List Segment) (k : Nat) (a : Segment)
    (ha : l[2 * k]? = some a) (hb : l[2 * k + 1]? = none) :
    (pairsSpec l)[k]? = some [a] := by
  induction l using pairsSpec.induct generalizing k with
  | case1 => simp at ha
  | case2 c =>
    cases k with
    | zero => simp at ha; simp [pairsSpec, ha]
    | succ k =>
      have h1 : 2 * (k + 1) = 2 * k + 1 + 1 := by ring
      rw [h1] at ha
      simp at ha
  | case3 c d rest ih =>
    cases k with
    | zero =>
      rw [show 2 * 0 + 1 = 0 + 1 from rfl, List.getElem?_cons_succ] at hb
      simp at hb
    | succ k =>
      have h1 : 2 * (k + 1) = 2 * k + 1 + 1 := by ring
      rw [h1] at ha hb
      simp only [List.getElem?_cons_succ] at ha hb
      simpa [pairsSpec] using ih k ha hb

theorem pairsSpec_getElem? (l : List Segment) (k : Nat) (e : List Segment)
    (he : (pairsSpec l)[k]? = some e) :
    ∃ a, l[2 * k]? = some a ∧ e = a :: (l[2 * k + 1]?).toList := by
  have hk : k < (pairsSpec l).length := by
    by_contra hcon
    rw [List.getElem?_eq_none (by omega)] at he
    exact Option.noConfusion he
  rw [pairsSpec_length] at hk
  have h0 : 2 * k < l.length := by omega
  refine ⟨l[2 * k], List.getElem?_eq_getElem h0, ?_⟩
  cases hb : l[2 * k + 1]? with
  | none =>
    have := pairsSpec_last l k _ (List.getElem?_eq_getElem h0) hb
    rw [this] at he
    simpa using he.symm
  | some b =>
    have := pairsSpec_full l k _ b (List.getElem?_eq_getElem h0) hb
    rw [this] at he
    simpa using he.symm

theorem mappingPairs_getElem? (mappings : List Segment) (k : Nat) (e : Option (List Segment))
    (he : (mappingPairs mappings)[k]? = some e) :
    ∃ a, mappings[2 * k]? = some a ∧ e = some (a :: (mappings[2 * k + 1]?).toList) ∧
      destructurePair e = .ok (a, mappings[2 * k + 1]?) := by
  rw [mappingPairs_eq_pairsSpec, List.getElem?_map] at he
  cases hp : (pairsSpec mappings)[k]? with
  | none => rw [hp] at he; exact Option.noConfusion he
  | some q =>
    rw [hp] at he
    obtain ⟨a, ha, hq⟩ := pairsSpec_getElem? mappings k q hp
    have he2 : e = some q := by simpa using he.symm
    refine ⟨a, ha, by rw [he2, hq], ?_⟩
    rw [he2, hq]
    cases mappings[2 * k + 1]? <;> rfl

/-- C1: for a generated line with n decoded segments, the pairing step of
writeRemapping yields ceil(n/2) pairs in order; pair k is (seg[2k], seg[2k+1])
when 2k+1 < n, for odd n the final pair is seg[n-1] with no end, and for n = 0
there is no pair. -/
theorem mappingPairs_consecutive (mappings : List Segment) :
    (mappingPairs mappings).length = (mappings.length + 1) / 2 ∧
    (∀ k, 2 * k + 1 < mappings.length →
      ∃ a b, mappings[2 * k]? = some a ∧ mappings[2 * k + 1]? = some b ∧
        (mappingPairs mappings)[k]? = some (some [a, b]) ∧
        destructurePair (some [a, b]) = .ok (a, some b)) ∧
    (mappings.length % 2 = 1 →
      ∃ a, mappings[mappings.length - 1]? = some a ∧
        (mappingPairs mappings)[(mappings.length + 1) / 2 - 1]? = some (some [a]) ∧
        destructurePair (some [a]) = .ok (a, none)) ∧
    (mappings.length = 0 → mappingPairs mappings = []) := by
  refine ⟨?_, ?_, ?_, ?_⟩
  · rw [mappingPairs_eq_pairsSpec, List.length_map, pairsSpec_length]
  · intro k hk
    have h0 : 2 * k < mappings.length := by omega
    refine ⟨mappings[2 * k], mappings[2 * k + 1], List.getElem?_eq_getElem h0,
      List.getElem?_eq_getElem hk, ?_, rfl⟩
    rw [mappingPairs_eq_pairsSpec, List.getElem?_map,
      pairsSpec_full mappings k _ _ (List.getElem?_eq_getElem h0) (List.getElem?_eq_getElem hk)]
    rfl
  · intro hodd
    have hlast : mappings.length - 1 < mappings.length := by omega
    have hk : 2 * ((mappings.length + 1) / 2 - 1) = mappings.length - 1 := by omega
    refine ⟨mappings[mappings.length - 1], List.getElem?_eq_getElem hlast, ?_, rfl⟩
    rw [mappingPairs_eq_pairsSpec, List.getElem?_map,
      pairsSpec_last mappings _ (mappings[mappings.length - 1])
        (by rw [hk]; exact List.getElem?_eq_getElem hlast)
        (by rw [hk]; exact List.getElem?_eq_none (by omega))]
    rfl
  · intro h0
    rw [List.length_eq_zero.mp h0]
    rfl

/-- Instance of C1 on a line with three segments: two pairs, the second one a
point location. -/
theorem mappingPairs_consecutive_witness :
    (mappingPairs [[0, 0, 0, 0], [5, 0, 0, 10], [7, 0, 0, 12]]).length = 2 ∧
    mappingPairs [[0, 0, 0, 0], [5, 0, 0, 10], [7, 0, 0, 12]]
      = [some [[0, 0, 0, 0], [5, 0, 0, 10]], some [[7, 0, 0, 12]]] := by
  refine ⟨(mappingPairs_consecutive [[0, 0, 0, 0], [5, 0, 0, 10], [7, 0, 0, 12]]).1, ?_⟩
  decide

theorem onePlus_at (s : Segment) (i : Nat) (c : Int) (h : s[i]? = some c) :
    (s.at i).onePlus = .num (c + 1) := by
  simp [Segment.at, List.get?_eq_getElem?, h, Val.onePlus, Val.toNumber, add_comm]

theorem field_line (l c : Val) : Position.field [("line", l), ("column", c)] "line" = l := by
  simp [Position.field, objGet]

theorem field_column (l c : Val) : Position.field [("line", l), ("column", c)] "column" = c := by
  simp [Position.field, objGet]

/-- C2: the pair at index k of the generated line with 0-based index g has the
generated position (g+1, start[0]+1) to (g+1, end[0]+1) and the source position
(start[2]+1, start[3]+1) to (end[2]+1, end[3]+1), where start and end are the
segments 2k and 2k+1 of the line; without an end segment both ends are
undefined. -/
theorem pair_positions (generatedRowIndex : Nat) (mappings : List Segment) (k : Nat)
    (e : Option (List Segment)) (he : (mappingPairs mappings)[k]? = some e) :
    ∃ startSeg endSeg,
      mappings[2 * k]? = some startSeg ∧ mappings[2 * k + 1]? = endSeg ∧
      destructurePair e = .ok (startSeg, endSeg) ∧
      generatedPosition generatedRowIndex startSeg endSeg =
        { start := [("line", .num (generatedRowIndex + 1)), ("column", (startSeg.at 0).onePlus)]
          end_ := endSeg.map fun s =>
            [("line", .num (generatedRowIndex + 1)), ("column", (s.at 0).onePlus)] } ∧
      sourcePosition startSeg endSeg =
        { start := [("line", (startSeg.at 2).onePlus), ("column", (startSeg.at 3).onePlus)]
          end_ := endSeg.map fun s =>
            [("line", (s.at 2).onePlus), ("column", (s.at 3).onePlus)] } ∧
      (endSeg = none →
        (generatedPosition generatedRowIndex startSeg endSeg).end_ = none ∧
        (sourcePosition startSeg endSeg).end_ = none) ∧
      (∀ (s : Segment) (i : Nat) (c : Int), s[i]? = some c → (s.at i).onePlus = .num (c + 1)) := by
  obtain ⟨a, ha, _, hd⟩ := mappingPairs_getElem? mappings k e he
  refine ⟨a, mappings[2 * k + 1]?, ha, rfl, hd, ?_, rfl, ?_, onePlus_at⟩
  · simp [generatedPosition, Val.onePlus, Val.toNumber, add_comm]
  · intro hnone
    simp [generatedPosition, sourcePosition, hnone]

/-- The line with segments [[0,0,0,0],[5,0,0,10]] yields exactly one pair, with
generated range (1,1) to (1,6) and source range (1,1) to (1,11). -/
theorem pair_positions_witness :
    (mappingPairs [[0, 0, 0, 0], [5, 0, 0, 10]]).length = 1 ∧
    generatedPosition 0 [0, 0, 0, 0] (some [5, 0, 0, 10]) =
      { start := [("line", .num 1), ("column", .num 1)]
        end_ := some [("line", .num 1), ("column", .num 6)] } ∧
    sourcePosition [0, 0, 0, 0] (some [5, 0, 0, 10]) =
      { start := [("line", .num 1), ("column", .num 1)]
        end_ := some [("line", .num 1), ("column", .num 11)] } ∧
    ∃ startSeg endSeg,
      ([[0, 0, 0, 0], [5, 0, 0, 10]] : List Segment)[2 * 0]? = some startSeg ∧
      ([[0, 0, 0, 0], [5, 0, 0, 10]] : List Segment)[2 * 0 + 1]? = endSeg ∧
      destructurePair (some [[0, 0, 0, 0], [5, 0, 0, 10]]) = .ok (startSeg, endSeg) := by
  refine ⟨by decide, by decide, by decide, ?_⟩
  obtain ⟨s, t, h1, h2, h3, _⟩ :=
    pair_positions 0 [[0, 0, 0, 0], [5, 0, 0, 10]] 0 (some [[0, 0, 0, 0], [5, 0, 0, 10]])
      (by decide)
  exact ⟨s, t, h1, h2, h3⟩

theorem genColumnLe_iff (s t : Segment) (h : genColumnLe s t = true) :
    ∃ x y, s[0]? = some x ∧ t[0]? = some y ∧ x ≤ y := by
  cases s with
  | nil => simp [genColumnLe] at h
  | cons x s =>
    cases t with
    | nil => simp [genColumnLe] at h
    | cons y t => exact ⟨x, y, by simp, by simp, by simpa [genColumnLe] using h⟩

/-- C10: a generated position with an end lies on one line, and when the
segments of the line ascend by generated column its start column is at most its
end column; the source position carries no such relation between its two
segments. -/
theorem generated_range_well_formed (generatedRowIndex : Nat) (mappings : List Segment) (k : Nat)
    (e : Option (List Segment)) (startSeg endSeg : Segment)
    (he : (mappingPairs mappings)[k]? = some e)
    (hd : destructurePair e = .ok (startSeg, some endSeg)) :
    ∃ endPos,
      (generatedPosition generatedRowIndex startSeg (some endSeg)).end_ = some endPos ∧
      (generatedPosition generatedRowIndex startSeg (some endSeg)).start.field "line"
        = endPos.field "line" ∧
      endPos.field "line" = .num (generatedRowIndex + 1) ∧
      (AscendingByGeneratedColumn mappings →
        ∃ x y,
          (generatedPosition generatedRowIndex startSeg (some endSeg)).start.field "column"
            = .num x ∧
          endPos.field "column" = .num y ∧ x ≤ y) ∧
      (∃ s t : Segment, AscendingByGeneratedColumn [s, t] ∧
        (sourcePosition s (some t)).start.field "line"
          ≠ ((sourcePosition s (some t)).end_.getD []).field "line") := by
  obtain ⟨a, ha, _, hd2⟩ := mappingPairs_getElem? mappings k e he
  rw [hd] at hd2
  have hpair : startSeg = a ∧ some endSeg = mappings[2 * k + 1]? := by
    simpa using hd2
  obtain ⟨hs, hb⟩ := hpair
  subst hs
  refine ⟨_, rfl, ?_, ?_, ?_, ?_⟩
  · simp [generatedPosition, field_line]
  · simp [field_line, Val.onePlus, Val.toNumber, add_comm]
  · intro hasc
    have h0 : 2 * k < mappings.length := by
      by_contra hcon
      rw [List.getElem?_eq_none (by omega)] at ha
      exact Option.noConfusion ha
    have h1 : 2 * k + 1 < mappings.length := by
      by_contra hcon
      rw [List.getElem?_eq_none (by omega)] at hb
      exact Option.noConfusion hb
    have hle := (List.pairwise_iff_getElem.mp hasc) (2 * k) (2 * k + 1) h0 h1 (by omega)
    have hs' : mappings[2 * k] = startSeg := by
      rw [List.getElem?_eq_getElem h0] at ha; simpa using ha
    have ht' : mappings[2 * k + 1] = endSeg := by
      rw [List.getElem?_eq_getElem h1] at hb; simpa using hb.symm
    rw [hs', ht'] at hle
    obtain ⟨x, y, hx, hy, hxy⟩ := genColumnLe_iff _ _ hle
    refine ⟨x + 1, y + 1, ?_, ?_, by omega⟩
    · rw [generatedPosition, field_column, onePlus_at _ _ _ hx]
    · rw [field_column, onePlus_at _ _ _ hy]
  · refine ⟨[0, 0, 5, 0], [1, 0, 2, 0], ?_, ?_⟩
    · simp [AscendingByGeneratedColumn, genColumnLe]
    · decide

/-- Instance of C10 on the line [[0,0,0,0],[5,0,0,10]]: its one pair spans
columns 1 to 6 of generated line 1. -/
theorem generated_range_well_formed_witness :
    AscendingByGeneratedColumn [[0, 0, 0, 0], [5, 0, 0, 10]] ∧
    ∃ endPos,
      (generatedPosition 0 [0, 0, 0, 0] (some [5, 0, 0, 10])).end_ = some endPos ∧
      (generatedPosition 0 [0, 0, 0, 0] (some [5, 0, 0, 10])).start.field "line"
        = endPos.field "line" := by
  refine ⟨by simp [AscendingByGeneratedColumn, genColumnLe], ?_⟩
  obtain ⟨endPos, h1, h2, _⟩ :=
    generated_range_well_formed 0 [[0, 0, 0, 0], [5, 0, 0, 10]] 0
      (some [[0, 0, 0, 0], [5, 0, 0, 10]]) [0, 0, 0, 0] [5, 0, 0, 10] (by decide) rfl
  exact ⟨endPos, h1, h2⟩

/-! ## Objects -/

theorem objGet_objSet_same {β : Type} (o : Obj β) (k : String) (v : β) :
    objGet (objSet o k v) k = some v := by
  induction o with
  | nil => simp [objSet, objGet]
  | cons kv rest ih =>
    obtain ⟨k', v'⟩ := kv
    by_cases h : k' = k
    · simp [objSet, objGet, h]
    · simp [objSet, objGet, h, ih]

theorem objGet_objSet_other {β : Type} (o : Obj β) (k k' : String) (v : β) (h : k' ≠ k) :
    objGet (objSet o k v) k' = objGet o k' := by
  induction o with
  | nil => simp [objSet, objGet, h.symm]
  | cons kv rest ih =>
    obtain ⟨k'', v'⟩ := kv
    by_cases h2 : k'' = k
    · subst h2
      simp [objSet, objGet, h.symm]
    · simp [objSet, objGet, h2, ih]

theorem objSet_of_objGet {β : Type} (o : Obj β) (k : String) (v : β)
    (h : objGet o k = some v) : objSet o k v = o := by
  induction o with
  | nil => simp [objGet] at h
  | cons kv rest ih =>
    obtain ⟨k', v'⟩ := kv
    by_cases h2 : k' = k
    · simp [objGet, h2] at h
      simp [objSet, h2, h]
    · simp [objGet, h2] at h
      simp [objSet, h2, ih h]

theorem objSet_objSet {β : Type} (o : Obj β) (k : String) (v w : β) :
    objSet (objSet o k v) k w = objSet o k w := by
  induction o with
  | nil => simp [objSet]
  | cons kv rest ih =>
    obtain ⟨k', v'⟩ := kv
    by_cases h2 : k' = k
    · simp [objSet, h2]
    · simp [objSet, h2, ih]

theorem field_objSet_same (p : Position) (k : String) (v : Val) :
    Position.field (objSet p k v) k = v := by
  simp [Position.field, objGet_objSet_same]

theorem normalizedColumn_ne_infinity (p : Position) : normalizedColumn p ≠ .infinity := by
  unfold normalizedColumn
  split
  · simp
  · assumption

theorem normalizedColumn_objSet (p : Position) :
    normalizedColumn (objSet p "column" (normalizedColumn p)) = normalizedColumn p := by
  have h := normalizedColumn_ne_infinity p
  unfold normalizedColumn at h ⊢
  rw [field_objSet_same, if_neg h]

/-- C8: normalizeLocation replaces a start or end column equal to Infinity by
undefined, leaves every other column and every other property of start and end
as it was, is the identity on locations whose columns are finite numbers, and
is idempotent. -/
theorem normalizeLocation_columns (loc : Range) :
    (loc.start.field "column" = .infinity →
      (normalizeLocation loc).start.field "column" = .undefined) ∧
    (loc.end_.field "column" = .infinity →
      (normalizeLocation loc).end_.field "column" = .undefined) ∧
    (loc.start.field "column" ≠ .infinity →
      (normalizeLocation loc).start.field "column" = loc.start.field "column") ∧
    (loc.end_.field "column" ≠ .infinity →
      (normalizeLocation loc).end_.field "column" = loc.end_.field "column") ∧
    (∀ k, k ≠ "column" →
      objGet (normalizeLocation loc).start k = objGet loc.start k ∧
      objGet (normalizeLocation loc).end_ k = objGet loc.end_ k) ∧
    ((normalizeLocation loc).start.field "line" = loc.start.field "line" ∧
      (normalizeLocation loc).end_.field "line" = loc.end_.field "line") ∧
    (∀ c d : Int, objGet loc.start "column" = some (.num c) →
      objGet loc.end_ "column" = some (.num d) → normalizeLocation loc = loc) ∧
    normalizeLocation (normalizeLocation loc) = normalizeLocation loc := by
  refine ⟨?_, ?_, ?_, ?_, ?_, ?_, ?_, ?_⟩
  · intro h
    simp [normalizeLocation, field_objSet_same, normalizedColumn, h]
  · intro h
    simp [normalizeLocation, field_objSet_same, normalizedColumn, h]
  · intro h
    simp [normalizeLocation, field_objSet_same, normalizedColumn, h]
  · intro h
    simp [normalizeLocation, field_objSet_same, normalizedColumn, h]
  · intro k hk
    exact ⟨objGet_objSet_other _ _ _ _ hk, objGet_objSet_other _ _ _ _ hk⟩
  · constructor <;>
      simp [normalizeLocation, Position.field, objGet_objSet_other _ "column" "line" _ (by decide)]
  · intro c d hc hd
    have h1 : normalizedColumn loc.start = .num c := by
      simp [normalizedColumn, Position.field, hc]
    have h2 : normalizedColumn loc.end_ = .num d := by
      simp [normalizedColumn, Position.field, hd]
    cases loc with
    | mk s e =>
      simp only [normalizeLocation] at *
      rw [h1, h2, objSet_of_objGet _ _ _ hc, objSet_of_objGet _ _ _ hd]
  · simp only [normalizeLocation, normalizedColumn_objSet, objSet_objSet]

/-- Instance of C8 for a statement whose end column is Infinity: the end column
becomes undefined, the rest stays. -/
theorem normalizeLocation_columns_witness :
    normalizeLocation
        { start := [("line", .num 4), ("column", .num 2)]
          end_ := [("line", .num 4), ("column", .infinity)] }
      = { start := [("line", .num 4), ("column", .num 2)]
          end_ := [("line", .num 4), ("column", .undefined)] } ∧
    (normalizeLocation
        { start := [("line", .num 4), ("column", .num 2)]
          end_ := [("line", .num 4), ("column", .infinity)] }).end_.field "column"
      = .undefined := by
  refine ⟨by decide, ?_⟩
  exact (normalizeLocation_columns _).2.1 (by decide)

/-! ## `existsInSources` -/

/-- C3: for a 1-based start position existsInSources returns true when the
addressed row has a character at the column and false when the row is shorter
than the column; when the addressed row does not exist it does not return false
but throws a TypeError. -/
theorem existsInSources_cases (p : Platform) (src : Str) (line column : Nat)
    (end_ : Option Position) (hl : 1 ≤ line) (hc : 1 ≤ column) :
    (∀ row, (jsSplit (EOL p) src)[line - 1]? = some row → column ≤ row.length →
      existsInSources p (some src)
        { start := [("line", .num line), ("column", .num column)], end_ := end_ } = .ok true) ∧
    (∀ row, (jsSplit (EOL p) src)[line - 1]? = some row → row.length < column →
      existsInSources p (some src)
        { start := [("line", .num line), ("column", .num column)], end_ := end_ } = .ok false) ∧
    ((jsSplit (EOL p) src).length < line →
      existsInSources p (some src)
        { start := [("line", .num line), ("column", .num column)], end_ := end_ }
        = .error .typeError) := by
  have hline : ((line : Int) - 1).toNat = line - 1 := by omega
  have hcol : ((column : Int) - 1).toNat = column - 1 := by omega
  have hl0 : (0 : Int) ≤ (line : Int) - 1 := by omega
  have hc0 : (0 : Int) ≤ (column : Int) - 1 := by omega
  refine ⟨?_, ?_, ?_⟩
  · intro row hrow hlen
    have hb : column - 1 < row.length := by omega
    have hget : row[column - 1]? = some row[column - 1] := List.getElem?_eq_getElem hb
    simp [existsInSources, field_line, field_column, Val.minusOne, Val.toNumber, rowAt, charAt,
      hl0, hc0, hline, hcol, List.get?_eq_getElem?, hrow, hget]
  · intro row hrow hlen
    have hget : row[column - 1]? = none := List.getElem?_eq_none (by omega)
    simp [existsInSources, field_line, field_column, Val.minusOne, Val.toNumber, rowAt, charAt,
      hl0, hc0, hline, hcol, List.get?_eq_getElem?, hrow, hget]
  · intro hlen
    have hget : (jsSplit (EOL p) src)[line - 1]? = none := List.getElem?_eq_none (by omega)
    simp [existsInSources, field_line, Val.minusOne, Val.toNumber, rowAt,
      hl0, hline, List.get?_eq_getElem?, hget]

/-- The source text "abc" has one row; asking for line 2, column 1 throws. -/
theorem existsInSources_cases_witness :
    existsInSources .posix (some "abc".toList)
      { start := [("line", .num 2), ("column", .num 1)], end_ := none } = .error .typeError :=
  (existsInSources_cases .posix "abc".toList 2 1 none (by decide) (by decide)).2.2 (by decide)

/-! ## Hit labels -/

theorem arrayToString_not_digits (a b : Nat) (rest : List Nat) :
    (arrayToString (a :: b :: rest)).all Char.isDigit = false := by
  have hcomma : Char.isDigit ',' = false := by decide
  simp [arrayToString, List.intercalate, List.intersperse, hcomma]

/-- C5 (divergence): a branch with two or more per-path counters is reported as
not hit whatever the counters are, because the array of counters converts to
NaN in the comparison with 0. -/
theorem branch_entry_reads_no (codeFrameColumns : Str → FrameLocation → Str) (code : Str)
    (hits : Obj (List Nat)) (key : String) (counters : List Nat) (loc : Range)
    (hk : objGet hits key = some counters) (hlen : 2 ≤ counters.length) :
    branchHit hits key = false ∧
    (coverageRow codeFrameColumns code "Branch" (branchHit hits key) loc).content
      = "\nBranch\nHit: No ❌\n\n```js\n".toList
        ++ codeFrameColumns code (normalizeLocation loc).toFrameLocation ++ "\n```\n".toList := by
  have hb : branchHit hits key = false := by
    match counters, hlen with
    | a :: b :: rest, _ =>
      simp [branchHit, hk, stringToNumber, arrayToString_not_digits, Val.gtZero, Val.toNumber]
  refine ⟨hb, ?_⟩
  rw [hb]
  simp [coverageRow, coverageTemplate]

/-- A branch with counters [1, 0] was taken once, yet its entry reads
"Hit: No". -/
theorem branch_entry_reads_no_witness :
    (1 : Nat) ∈ [1, 0] ∧ branchHit [("0", [1, 0])] "0" = false :=
  ⟨by decide,
    (branch_entry_reads_no (fun _ _ => []) [] [("0", [1, 0])] "0" [1, 0]
      { start := [], end_ := [] } rfl (by decide)).1⟩

/-! ## Decimal numerals and labels -/

theorem digitChar_toNat (d : Nat) (h : d < 10) : (Nat.digitChar d).toNat - 48 = d := by
  interval_cases d <;> rfl

theorem digitsValue_toDigitsCore (fuel n : Nat) (ds : List Char) (h : n < fuel) :
    digitsValue 0 (Nat.toDigitsCore 10 fuel n ds) = digitsValue n ds := by
  induction fuel generalizing n ds with
  | zero => omega
  | succ fuel ih =>
    have hmod : (Nat.digitChar (n % 10)).toNat - 48 = n % 10 :=
      digitChar_toNat _ (Nat.mod_lt _ (by decide))
    unfold Nat.toDigitsCore
    by_cases h0 : n / 10 = 0
    · have hn : n % 10 = n := by omega
      simp only [h0, if_true, digitsValue, List.foldl_cons, Nat.mul_zero, Nat.zero_add, hmod]
      rw [hn]
    · have hlt : n / 10 < fuel := by omega
      simp only [h0, if_false]
      rw [ih (n / 10) _ hlt]
      have hdm : 10 * (n / 10) + n % 10 = n := Nat.div_add_mod n 10
      simp [digitsValue, hmod, hdm]

theorem digitsValue_repr (n : Nat) : digitsValue 0 (toString n).toList = n := by
  have h := digitsValue_toDigitsCore (n + 1) n [] (Nat.lt_succ_self n)
  simpa [digitsValue, Nat.repr, Nat.toDigits, toString, ToString.toString] using h

theorem toString_nat_injective (a b : Nat) (h : toString a = toString b) : a = b := by
  have h1 := digitsValue_repr a
  have h2 := digitsValue_repr b
  rw [h] at h1
  exact h1.symm.trans h2

theorem lineLabel_injective (i j : Nat) (h : lineLabel i = lineLabel j) : i = j := by
  unfold lineLabel at h
  have hdata := congrArg String.data h
  simp only [String.data_append, List.append_cancel_left_eq] at hdata
  have hs : toString (i + 1) = toString (j + 1) := String.ext hdata
  have := toString_nat_injective _ _ hs
  omega

/-! ## `writeMappings` -/

theorem objSet_fresh {β : Type} (o : Obj β) (k : String) (v : β)
    (h : ∀ kv ∈ o, kv.1 ≠ k) : objSet o k v = o ++ [(k, v)] := by
  induction o with
  | nil => rfl
  | cons kv rest ih =>
    obtain ⟨k', v'⟩ := kv
    have h1 : k' ≠ k := h (k', v') (List.mem_cons_self _ _)
    have h2 : ∀ kv ∈ rest, kv.1 ≠ k := fun kv hkv => h kv (List.mem_cons_of_mem _ hkv)
    simp [objSet, h1, ih h2]

theorem foldl_labelStep (l : List (List Segment)) (s : Nat) (acc : Obj (List Segment))
    (hacc : ∀ kv ∈ acc, ∃ j, j < s ∧ kv.1 = lineLabel j) :
    (objectEntries s l).foldl labelStep acc
      = acc ++ ((indexed s l).filter fun entry => decide (entry.2 ≠ [])).map
          fun entry => (lineLabel entry.1, entry.2) := by
  induction l generalizing s acc with
  | nil => simp [indexed, objectEntries]
  | cons m rest ih =>
    simp only [indexed, objectEntries, List.foldl_cons]
    by_cases hm : m = []
    · have hstep : labelStep acc (toString s, m) = acc := by simp [labelStep, hm]
      rw [hstep, ih (s + 1) acc (fun kv hkv => by
        obtain ⟨j, hj, hk⟩ := hacc kv hkv
        exact ⟨j, by omega, hk⟩)]
      simp [hm]
    · have hlen : m.length ≠ 0 := by simpa [List.length_eq_zero] using hm
      have hfresh : ∀ kv ∈ acc, kv.1 ≠ lineLabel s := by
        intro kv hkv heq
        obtain ⟨j, hj, hk⟩ := hacc kv hkv
        have := lineLabel_injective j s (hk.symm.trans heq)
        omega
      have hstep : labelStep acc (toString s, m) = acc ++ [(lineLabel s, m)] := by
        have hlabel : "Line " ++ toString (1 + parseInt (toString s)) = lineLabel s := by
          rw [parseInt, digitsValue_repr, lineLabel, Nat.add_comm]
        simp only [labelStep, hlen, if_false, hlabel]
        exact objSet_fresh acc _ m hfresh
      rw [hstep, ih (s + 1) (acc ++ [(lineLabel s, m)]) (fun kv hkv => by
        rcases List.mem_append.mp hkv with hkv | hkv
        · obtain ⟨j, hj, hk⟩ := hacc kv hkv
          exact ⟨j, by omega, hk⟩
        · have : kv = (lineLabel s, m) := by simpa using hkv
          exact ⟨s, by omega, by rw [this]⟩)]
      simp [hm]

theorem writeMappings_eq_spec (decoded : List (List Segment)) :
    writeMappings decoded = keyedLinesSpec decoded := by
  have h := foldl_labelStep decoded 0 [] (by simp)
  simpa [writeMappings, keyedLinesSpec] using h

theorem mem_indexed {α : Type} (l : List α) (s i : Nat) (x : α) :
    (i, x) ∈ indexed s l ↔ s ≤ i ∧ l[i - s]? = some x := by
  induction l generalizing s with
  | nil => simp [indexed]
  | cons y rest ih =>
    simp only [indexed, List.mem_cons, Prod.mk.injEq, ih]
    constructor
    · rintro (⟨hi, hx⟩ | ⟨hle, hget⟩)
      · subst hi; subst hx; simp
      · refine ⟨by omega, ?_⟩
        have : i - s = (i - (s + 1)) + 1 := by omega
        rw [this, List.getElem?_cons_succ]
        exact hget
    · rintro ⟨hle, hget⟩
      by_cases his : i = s
      · left
        subst his
        simp at hget
        exact ⟨rfl, hget.symm⟩
      · right
        refine ⟨by omega, ?_⟩
        have : i - s = (i - (s + 1)) + 1 := by omega
        rw [this, List.getElem?_cons_succ] at hget
        exact hget

theorem objGet_keyed (l : List (List Segment)) (s i : Nat) :
    objGet (((indexed s l).filter fun entry => decide (entry.2 ≠ [])).map
        fun entry => (lineLabel entry.1, entry.2)) (lineLabel i)
      = if s ≤ i then (l[i - s]?).filter (fun segs => decide (segs ≠ [])) else none := by
  induction l generalizing s with
  | nil => simp [indexed, objGet]
  | cons m rest ih =>
    by_cases hm : m = []
    · simp only [indexed, hm, ne_eq, not_true_eq_false, decide_False, Bool.false_eq_true,
        not_false_eq_true, List.filter_cons_of_neg]
      rw [ih (s + 1)]
      by_cases h1 : s + 1 ≤ i
      · have h2 : s ≤ i := by omega
        have h3 : i - s = (i - (s + 1)) + 1 := by omega
        simp [h1, h2, h3]
      · by_cases h2 : s ≤ i
        · have h3 : i - s = 0 := by omega
          simp [h1, h2, h3, Option.filter]
        · simp [h1, h2]
    · have hdec : decide (m ≠ []) = true := by simpa using hm
      simp only [indexed, List.filter_cons, hdec, if_true, List.map_cons, objGet]
      by_cases hsi : s = i
      · subst hsi
        simp [Option.filter, hm]
      · have hlab : lineLabel s ≠ lineLabel i := fun h => hsi (lineLabel_injective _ _ h)
        rw [if_neg hlab, ih (s + 1)]
        by_cases h1 : s + 1 ≤ i
        · have h2 : s ≤ i := by omega
          have h3 : i - s = (i - (s + 1)) + 1 := by omega
          simp [h1, h2, h3]
        · have h2 : ¬ s ≤ i := by omega
          simp [h1, h2]

/-- C6: the keyed mapping of writeMappings is exactly the list of entries
("Line " + (i+1), L[i]) for the non-empty lines L[i], in ascending order of i;
empty lines are absent, every non-empty line is present under its own label
with its segments unchanged, and distinct lines have distinct labels. -/
theorem writeMappings_keyed_lines (decoded : List (List Segment)) :
    writeMappings decoded = keyedLinesSpec decoded ∧
    (∀ key segs, (key, segs) ∈ writeMappings decoded ↔
      ∃ i, key = lineLabel i ∧ decoded[i]? = some segs ∧ segs ≠ []) ∧
    (∀ i, objGet (writeMappings decoded) (lineLabel i)
      = (decoded[i]?).filter fun segs => decide (segs ≠ [])) ∧
    (∀ i j, lineLabel i = lineLabel j → i = j) := by
  refine ⟨writeMappings_eq_spec decoded, ?_, ?_, lineLabel_injective⟩
  · intro key segs
    rw [writeMappings_eq_spec, keyedLinesSpec]
    simp only [List.mem_map, List.mem_filter, Prod.mk.injEq, Prod.exists, decide_eq_true_eq]
    constructor
    · rintro ⟨i, x, ⟨hmem, hne⟩, hk, hx⟩
      subst hx
      have := (mem_indexed decoded 0 i x).mp hmem
      exact ⟨i, hk.symm, by simpa using this.2, hne⟩
    · rintro ⟨i, hk, hget, hne⟩
      exact ⟨i, segs, ⟨(mem_indexed decoded 0 i segs).mpr ⟨Nat.zero_le _, by simpa using hget⟩,
        hne⟩, hk.symm, rfl⟩
  · intro i
    rw [writeMappings_eq_spec, keyedLinesSpec, objGet_keyed]
    simp

/-- Instance of C6 on a mapping whose second line is empty. -/
theorem writeMappings_keyed_lines_witness :
    writeMappings [[[0, 0, 0, 0]], [], [[1, 0, 1, 0], [4, 0, 1, 3]]]
      = [("Line 1", [[0, 0, 0, 0]]), ("Line 3", [[1, 0, 1, 0], [4, 0, 1, 3]])] := by
  rw [(writeMappings_keyed_lines _).1]
  decide

/-! ## Numbering and sorting -/

theorem jsJoin_eq_flatten (sep : Str) (rows : List Str) :
    jsJoin sep rows = (List.intersperse sep rows).flatten := by
  induction rows using jsJoin.induct sep with
  | case1 => rfl
  | case2 row => simp [jsJoin]
  | case3 row next rest ih => simp [jsJoin, ih]

theorem numberRows_length (s : Nat) (rows : List Str) : (numberRows s rows).length = rows.length := by
  induction rows generalizing s with
  | nil => rfl
  | cons r rest ih => simp [numberRows, ih]

theorem numberRows_getElem? (s : Nat) (rows : List Str) (i : Nat) :
    (numberRows s rows)[i]? = (rows[i]?).map fun row =>
      "## ".toList ++ (toString (s + i + 1)).toList ++ " ".toList ++ jsTrim row := by
  induction rows generalizing s i with
  | nil => simp [numberRows]
  | cons r rest ih =>
    cases i with
    | zero => simp [numberRows, Nat.add_comm]
    | succ i =>
      simp only [numberRows, List.getElem?_cons_succ, ih]
      have : s + 1 + i + 1 = s + (i + 1) + 1 := by omega
      rw [this]

theorem insertByCompare_perm {α : Type} (compare : α → α → Val) (x : α) (ys : List α) :
    (insertByCompare compare x ys).Perm (x :: ys) := by
  induction ys with
  | nil => exact List.Perm.refl _
  | cons y ys ih =>
    unfold insertByCompare
    split
    · exact (List.Perm.cons y ih).trans (List.Perm.swap x y ys)
    · exact List.Perm.refl _

theorem jsSort_perm {α : Type} (compare : α → α → Val) (xs : List α) :
    (jsSort compare xs).Perm xs := by
  induction xs with
  | nil => exact List.Perm.refl _
  | cons x xs ih =>
    exact (insertByCompare_perm compare x _).trans (List.Perm.cons x ih)

theorem compareLine_self_line (a b : MarkdownRow) (h : a.line = b.line) :
    (compareLine a b).gtZero = false := by
  unfold compareLine
  rw [h]
  cases b.line <;> simp [Val.sub, Val.toNumber, Val.gtZero]

theorem compareLine_num (a b : MarkdownRow) (m n : Int) (ha : a.line = .num m)
    (hb : b.line = .num n) : (compareLine a b).gtZero = decide (n < m) := by
  simp [compareLine, ha, hb, Val.sub, Val.toNumber, Val.gtZero]

theorem filter_insertByCompare (l : Val) (x : MarkdownRow) (ys : List MarkdownRow) :
    (insertByCompare compareLine x ys).filter (fun r => decide (r.line = l))
      = (x :: ys).filter (fun r => decide (r.line = l)) := by
  induction ys with
  | nil => rfl
  | cons y ys ih =>
    unfold insertByCompare
    split
    · rename_i hgt
      have hne : x.line ≠ y.line := by
        intro heq
        rw [compareLine_self_line x y heq] at hgt
        exact Bool.noConfusion hgt
      by_cases hy : y.line = l
      · have hx : x.line ≠ l := fun hx => hne (hx.trans hy.symm)
        simp [List.filter_cons, hy, hx, ih]
      · simp [List.filter_cons, hy, ih]
    · rfl

theorem filter_jsSort (l : Val) (xs : List MarkdownRow) :
    (jsSort compareLine xs).filter (fun r => decide (r.line = l))
      = xs.filter (fun r => decide (r.line = l)) := by
  induction xs with
  | nil => rfl
  | cons x xs ih =>
    simp only [jsSort, filter_insertByCompare]
    simp [List.filter_cons, ih]

theorem pairwise_insertByCompare (x : MarkdownRow) (ys : List MarkdownRow)
    (hx : ∃ n : Int, x.line = .num n) (hys : ∀ r ∈ ys, ∃ n : Int, r.line = .num n)
    (hsorted : ys.Pairwise LineLe) : (insertByCompare compareLine x ys).Pairwise LineLe := by
  induction ys with
  | nil => simp [insertByCompare]
  | cons y ys ih =>
    obtain ⟨nx, hnx⟩ := hx
    obtain ⟨ny, hny⟩ := hys y (List.mem_cons_self _ _)
    have hys' : ∀ r ∈ ys, ∃ n : Int, r.line = .num n :=
      fun r hr => hys r (List.mem_cons_of_mem _ hr)
    obtain ⟨hy_le, hrest⟩ := List.pairwise_cons.mp hsorted
    unfold insertByCompare
    rw [compareLine_num x y nx ny hnx hny]
    by_cases hlt : ny < nx
    · simp only [hlt, decide_True, if_true]
      refine List.pairwise_cons.mpr ⟨?_, ih hys' hrest⟩
      intro z hz
      have hz' : z ∈ x :: ys := (insertByCompare_perm compareLine x ys).subset hz
      rcases List.mem_cons.mp hz' with hzx | hzy
      · subst hzx
        exact ⟨ny, nx, hny, hnx, le_of_lt hlt⟩
      · exact hy_le z hzy
    · simp only [hlt, decide_False, Bool.false_eq_true, if_false]
      refine List.pairwise_cons.mpr ⟨?_, hsorted⟩
      intro z hz
      rcases List.mem_cons.mp hz with hzy | hzy
      · subst hzy
        exact ⟨nx, ny, hnx, hny, by omega⟩
      · obtain ⟨m, n, hm, hn, hmn⟩ := hy_le z hzy
        have : m = ny := by
          rw [hny] at hm
          exact (Val.num.inj hm).symm
        exact ⟨nx, n, hnx, hn, by omega⟩

theorem pairwise_jsSort (xs : List MarkdownRow) (hxs : ∀ r ∈ xs, ∃ n : Int, r.line = .num n) :
    (jsSort compareLine xs).Pairwise LineLe := by
  induction xs with
  | nil => simp [jsSort]
  | cons x xs ih =>
    have hxs' : ∀ r ∈ xs, ∃ n : Int, r.line = .num n :=
      fun r hr => hxs r (List.mem_cons_of_mem _ hr)
    refine pairwise_insertByCompare x _ (hxs x (List.mem_cons_self _ _)) ?_ (ih hxs')
    intro r hr
    exact hxs' r ((jsSort_perm compareLine xs).subset hr)

theorem collectRows_numeric (codeFrameColumns : Str → FrameLocation → Str)
    (data : FileCoverageData) (code : Str) (hs : NumericLines data.statementMap)
    (hb : NumericLines data.branchMap) (hf : NumericLines data.fnMap) :
    ∀ r ∈ collectRows codeFrameColumns data code, ∃ n : Int, r.line = .num n := by
  intro r hr
  simp only [collectRows, List.mem_append, List.mem_map] at hr
  rcases hr with (⟨kv, hkv, rfl⟩ | ⟨kv, hkv, rfl⟩) | ⟨kv, hkv, rfl⟩
  · exact hs kv hkv
  · exact hb kv hkv
  · exact hf kv hkv

/-- C4: the entries of the coverage artifact, in their numbered order, are the
collected records (statements, then branches, then functions, each in map
order) stably sorted ascending by start line: the count is the total number of
records, the sorted rows are a permutation of the collected rows, they ascend
by line, and rows with the same line keep their collection order. -/
theorem coverage_entries_stably_sorted (p : Platform)
    (codeFrameColumns : Str → FrameLocation → Str) (data : FileCoverageData) (code : Str)
    (hs : NumericLines data.statementMap) (hb : NumericLines data.branchMap)
    (hf : NumericLines data.fnMap) :
    (collectRows codeFrameColumns data code).map (fun r => r.line)
      = data.statementMap.map (fun kv => kv.2.start.field "line")
        ++ data.branchMap.map (fun kv => kv.2.start.field "line")
        ++ data.fnMap.map (fun kv => kv.2.start.field "line") ∧
    (coverageEntries codeFrameColumns data code).length
      = data.statementMap.length + data.branchMap.length + data.fnMap.length ∧
    (sortedRows codeFrameColumns data code).Perm (collectRows codeFrameColumns data code) ∧
    (sortedRows codeFrameColumns data code).Pairwise LineLe ∧
    (∀ l : Val,
      (sortedRows codeFrameColumns data code).filter (fun r => decide (r.line = l))
        = (collectRows codeFrameColumns data code).filter (fun r => decide (r.line = l))) ∧
    (∀ i : Nat,
      (coverageEntries codeFrameColumns data code)[i]?
        = ((sortedRows codeFrameColumns data code)[i]?).map fun r =>
            "## ".toList ++ (toString (i + 1)).toList ++ " ".toList ++ jsTrim r.content) ∧
    writeCoverageRemappings p codeFrameColumns data code
      = jsJoin (separator p) (coverageEntries codeFrameColumns data code) ∧
    writeCoverageRemappings p codeFrameColumns data code
      = (List.intersperse (EOL p ++ EOL p ++ List.replicate 80 '_' ++ EOL p ++ EOL p)
          (coverageEntries codeFrameColumns data code)).flatten := by
  have hperm := jsSort_perm compareLine (collectRows codeFrameColumns data code)
  refine ⟨?_, ?_, hperm, ?_, ?_, ?_, rfl, ?_⟩
  rotate_right
  · rw [writeCoverageRemappings, jsJoin_eq_flatten]
    rfl
  · simp [collectRows, coverageRow, Function.comp_def]
  · rw [coverageEntries, numberRows_length, List.length_map, sortedRows, hperm.length_eq]
    simp [collectRows, Nat.add_assoc]
  · exact pairwise_jsSort _ (collectRows_numeric codeFrameColumns data code hs hb hf)
  · intro l
    exact filter_jsSort l _
  · intro i
    rw [coverageEntries, numberRows_getElem?, List.getElem?_map, Option.map_map]
    simp [Function.comp_def]

/-- On the example the order is statement (line 1), function (line 1), branch
(line 2), statement (line 3). -/
theorem coverage_entries_stably_sorted_witness :
    coverageEntries (fun _ _ => "...".toList) exampleCoverage [] =
      ["## 1 Statement\nHit: No ❌\n\n```js\n...\n```".toList,
       "## 2 Function\nHit: Yes ✅\n\n```js\n...\n```".toList,
       "## 3 Branch\nHit: Yes ✅\n\n```js\n...\n```".toList,
       "## 4 Statement\nHit: Yes ✅\n\n```js\n...\n```".toList] ∧
    (sortedRows (fun _ _ => "...".toList) exampleCoverage []).Pairwise LineLe := by
  refine ⟨by decide, ?_⟩
  exact (coverage_entries_stably_sorted .posix (fun _ _ => "...".toList) exampleCoverage []
    (by simp [NumericLines, exampleCoverage, field_line])
    (by simp [NumericLines, exampleCoverage, field_line])
    (by simp [NumericLines, exampleCoverage, field_line])).2.2.2.1

/-! ## The loops of `writeRemapping` -/

theorem pairLoop_eq_pushRows (p : Platform) (codeFrameColumns : Str → FrameLocation → Str)
    (generated : Str) (sources : Option Str) (g : Nat) (mappings : List Segment) (k : Nat)
    (acc : List Str) :
    pairLoop p codeFrameColumns generated sources g ((pairsSpec mappings).map some) acc
      = pushRows (fun q => remapRow p codeFrameColumns generated sources q.1 q.2.2.1 q.2.2.2)
          (linePairs g k mappings) acc := by
  induction mappings using pairsSpec.induct generalizing k acc with
  | case1 => rfl
  | case2 a =>
    simp only [pairsSpec, List.map_cons, List.map_nil, pairLoop, destructurePair, linePairs,
      pushRows, List.head?_nil]
  | case3 a b rest ih =>
    simp only [pairsSpec, List.map_cons, pairLoop, destructurePair, linePairs, pushRows,
      List.head?_cons]
    cases remapRow p codeFrameColumns generated sources g a (some b) with
    | error e => rfl
    | ok r => exact ih (k + 1) (acc ++ [r])

theorem pushRows_append {κ : Type} (row : κ → Except JsError Str) (xs ys : List κ)
    (acc : List Str) :
    pushRows row (xs ++ ys) acc
      = match pushRows row xs acc with
        | .error err => .error err
        | .ok out => pushRows row ys out := by
  induction xs generalizing acc with
  | nil => rfl
  | cons x xs ih =>
    simp only [List.cons_append, pushRows]
    cases row x with
    | error e => rfl
    | ok r => exact ih (acc ++ [r])

theorem lineLoop_eq_pushRows (p : Platform) (codeFrameColumns : Str → FrameLocation → Str)
    (generated : Str) (sources : Option Str) (g : Nat) (decoded : List (List Segment))
    (acc : List Str) :
    lineLoop p codeFrameColumns generated sources g decoded acc
      = pushRows (fun q => remapRow p codeFrameColumns generated sources q.1 q.2.2.1 q.2.2.2)
          (allPairs g decoded) acc := by
  induction decoded generalizing g acc with
  | nil => rfl
  | cons m rest ih =>
    simp only [lineLoop, allPairs, pushRows_append, mappingPairs_eq_pairsSpec]
    rw [pairLoop_eq_pushRows p codeFrameColumns generated sources g m 0 acc]
    cases pushRows (fun q => remapRow p codeFrameColumns generated sources q.1 q.2.2.1 q.2.2.2)
        (linePairs g 0 m) acc with
    | error e => rfl
    | ok out => exact ih (g + 1) out

theorem pushRows_ok_iff {κ : Type} (row : κ → Except JsError Str) (qs : List κ)
    (acc out : List Str) :
    pushRows row qs acc = .ok out ↔
      ∃ rows, out = acc ++ rows ∧ List.Forall₂ (fun q r => row q = .ok r) qs rows := by
  induction qs generalizing acc with
  | nil =>
    simp only [pushRows, Except.ok.injEq, List.forall₂_nil_left_iff]
    constructor
    · intro h; exact ⟨[], by simp [h]⟩
    · rintro ⟨rows, h, rfl⟩; simp [h]
  | cons q qs ih =>
    simp only [pushRows]
    cases hrow : row q with
    | error e =>
      constructor
      · intro h
        exact Except.noConfusion h
      · rintro ⟨rows, _, hall⟩
        cases hall with
        | cons h _ => rw [hrow] at h; exact Except.noConfusion h
    | ok r =>
      simp only [ih]
      constructor
      · rintro ⟨rows, hout, hall⟩
        exact ⟨r :: rows, by simp [hout], List.Forall₂.cons hrow hall⟩
      · rintro ⟨rows, hout, hall⟩
        cases hall with
        | cons h htail =>
          rw [hrow] at h
          cases h
          exact ⟨_, by simp [hout], htail⟩

theorem pushRows_total {κ : Type} (row : κ → Except JsError Str) (qs : List κ) (acc : List Str)
    (h : ∀ q ∈ qs, ∃ r, row q = .ok r) : ∃ out, pushRows row qs acc = .ok out := by
  induction qs generalizing acc with
  | nil => exact ⟨acc, rfl⟩
  | cons q qs ih =>
    obtain ⟨r, hr⟩ := h q (List.mem_cons_self _ _)
    simp only [pushRows, hr]
    exact ih (acc ++ [r]) (fun q' hq' => h q' (List.mem_cons_of_mem _ hq'))

theorem pushRows_congr {κ : Type} (row row' : κ → Except JsError Str) (qs qs' : List κ)
    (acc : List Str) (h : List.Forall₂ (fun q q' => row q = row' q') qs qs') :
    pushRows row qs acc = pushRows row' qs' acc := by
  induction h generalizing acc with
  | nil => rfl
  | cons hq _ ih =>
    simp only [pushRows, hq]
    split
    · rfl
    · exact ih _

theorem linePairs_length (g k : Nat) (m : List Segment) :
    (linePairs g k m).length = (m.length + 1) / 2 := by
  induction m using pairsSpec.induct generalizing k with
  | case1 => simp [linePairs]
  | case2 a => simp [linePairs]
  | case3 a b rest ih => simp only [linePairs, List.length_cons, ih]; omega

theorem allPairs_length (g : Nat) (decoded : List (List Segment)) :
    (allPairs g decoded).length = (decoded.map fun m => (m.length + 1) / 2).sum := by
  induction decoded generalizing g with
  | nil => rfl
  | cons m rest ih => simp [allPairs, linePairs_length, ih]

theorem mem_linePairs (g k : Nat) (m : List Segment) (q : Nat × Nat × Segment × Option Segment)
    (hq : q ∈ linePairs g k m) :
    q.1 = g ∧ k ≤ q.2.1 ∧ m[2 * (q.2.1 - k)]? = some q.2.2.1 ∧
      m[2 * (q.2.1 - k) + 1]? = q.2.2.2 := by
  induction m using pairsSpec.induct generalizing k with
  | case1 => simp [linePairs] at hq
  | case2 a =>
    simp only [linePairs, List.mem_singleton] at hq
    subst hq
    simp
  | case3 a b rest ih =>
    simp only [linePairs, List.mem_cons] at hq
    rcases hq with hq | hq
    · subst hq
      simp
    · obtain ⟨h1, h2, h3, h4⟩ := ih (k + 1) hq
      have hk : q.2.1 - k = (q.2.1 - (k + 1)) + 1 := by omega
      have e1 : 2 * (q.2.1 - k) = 2 * (q.2.1 - (k + 1)) + 1 + 1 := by omega
      have e2 : 2 * (q.2.1 - k) + 1 = (2 * (q.2.1 - (k + 1)) + 1) + 1 + 1 := by omega
      refine ⟨h1, by omega, ?_, ?_⟩
      · rw [e1, List.getElem?_cons_succ, List.getElem?_cons_succ]; exact h3
      · rw [e2, List.getElem?_cons_succ, List.getElem?_cons_succ]; exact h4

theorem mem_allPairs (g : Nat) (decoded : List (List Segment))
    (q : Nat × Nat × Segment × Option Segment) (hq : q ∈ allPairs g decoded) :
    g ≤ q.1 ∧ ∃ m, decoded[q.1 - g]? = some m ∧ m[2 * q.2.1]? = some q.2.2.1 ∧
      m[2 * q.2.1 + 1]? = q.2.2.2 := by
  induction decoded generalizing g with
  | nil => simp [allPairs] at hq
  | cons m rest ih =>
    simp only [allPairs, List.mem_append] at hq
    rcases hq with hq | hq
    · obtain ⟨h1, _, h3, h4⟩ := mem_linePairs g 0 m q hq
      refine ⟨by omega, m, ?_, by simpa using h3, by simpa using h4⟩
      simp [h1]
    · obtain ⟨h1, m', h2, h3, h4⟩ := ih (g + 1) hq
      refine ⟨by omega, m', ?_, h3, h4⟩
      have : q.1 - g = (q.1 - (g + 1)) + 1 := by omega
      rw [this, List.getElem?_cons_succ]
      exact h2

theorem linePairs_pairwise (g k : Nat) (m : List Segment) :
    (linePairs g k m).Pairwise PairBefore := by
  induction m using pairsSpec.induct generalizing k with
  | case1 => simp [linePairs]
  | case2 a => simp [linePairs]
  | case3 a b rest ih =>
    simp only [linePairs]
    refine List.pairwise_cons.mpr ⟨?_, ih (k + 1)⟩
    intro q hq
    obtain ⟨h1, h2, _⟩ := mem_linePairs g (k + 1) rest q hq
    right
    exact ⟨h1.symm, by simpa using h2⟩

theorem allPairs_pairwise (g : Nat) (decoded : List (List Segment)) :
    (allPairs g decoded).Pairwise PairBefore := by
  induction decoded generalizing g with
  | nil => simp [allPairs]
  | cons m rest ih =>
    simp only [allPairs]
    refine List.pairwise_append.mpr ⟨linePairs_pairwise g 0 m, ih (g + 1), ?_⟩
    intro a ha b hb
    obtain ⟨h1, _⟩ := mem_linePairs g 0 m a ha
    obtain ⟨h2, _⟩ := mem_allPairs (g + 1) rest b hb
    left
    omega

theorem remapRow_ok_of_exists (p : Platform) (codeFrameColumns : Str → FrameLocation → Str)
    (generated : Str) (sources : Option Str) (g : Nat) (a : Segment) (e : Option Segment)
    (isPresent : Bool) (h : existsInSources p sources (sourcePosition a e) = .ok isPresent) :
    ∃ r, remapRow p codeFrameColumns generated sources g a e = .ok r := by
  cases sources with
  | none => simp [existsInSources] at h
  | some src => simp [remapRow, h]

/-- C7: the report of writeRemapping has one entry per mapping pair, the total
over the generated lines of ceil(segments / 2); the entries follow increasing
(generated line, pair index) order; entry i (from 1) is headed by the number i;
the entries are joined by two line breaks, 80 underscores and two line breaks;
an empty mapping gives the empty report; and the report is produced whenever
the existence check returns for every pair. -/
theorem remapping_report_shape (p : Platform) (codeFrameColumns : Str → FrameLocation → Str)
    (generated : Str) (decoded : List (List Segment)) (sourcesContent : List (Option Str)) :
    (∀ report, writeRemapping p codeFrameColumns generated decoded sourcesContent = .ok report →
      ∃ entries rows,
        report = (List.intersperse
          (EOL p ++ EOL p ++ List.replicate 80 '_' ++ EOL p ++ EOL p) entries).flatten ∧
        entries.length = (decoded.map fun m => (m.length + 1) / 2).sum ∧
        List.Forall₂
          (fun q r =>
            remapRow p codeFrameColumns generated sourcesContent.head?.join q.1 q.2.2.1 q.2.2.2 = .ok r)
          (allPairs 0 decoded) rows ∧
        ∀ i : Nat, entries[i]? = (rows[i]?).map fun row =>
          "## ".toList ++ (toString (i + 1)).toList ++ " ".toList ++ jsTrim row) ∧
    (allPairs 0 decoded).length = (decoded.map fun m => (m.length + 1) / 2).sum ∧
    (allPairs 0 decoded).Pairwise PairBefore ∧
    (∀ q ∈ allPairs 0 decoded, ∃ m, decoded[q.1]? = some m ∧ m[2 * q.2.1]? = some q.2.2.1 ∧
      m[2 * q.2.1 + 1]? = q.2.2.2) ∧
    separator p = EOL p ++ EOL p ++ List.replicate 80 '_' ++ EOL p ++ EOL p ∧
    writeRemapping p codeFrameColumns generated [] sourcesContent = .ok [] ∧
    ((∀ q ∈ allPairs 0 decoded, ∃ isPresent,
        existsInSources p sourcesContent.head?.join (sourcePosition q.2.2.1 q.2.2.2) = .ok isPresent) →
      ∃ report, writeRemapping p codeFrameColumns generated decoded sourcesContent = .ok report) := by
  refine ⟨?_, allPairs_length 0 decoded, allPairs_pairwise 0 decoded, ?_, rfl, rfl, ?_⟩
  · intro report hreport
    simp only [writeRemapping, remappingEntries, lineLoop_eq_pushRows] at hreport
    cases hpush : pushRows
        (fun q => remapRow p codeFrameColumns generated sourcesContent.head?.join q.1 q.2.2.1 q.2.2.2)
        (allPairs 0 decoded) [] with
    | error e =>
      rw [hpush] at hreport
      exact Except.noConfusion hreport
    | ok out =>
      rw [hpush] at hreport
      obtain ⟨rows, hout, hall⟩ := (pushRows_ok_iff _ _ _ _).mp hpush
      have hout' : out = rows := by simpa using hout
      subst hout'
      refine ⟨numberRows 0 out, out, ?_, ?_, hall, ?_⟩
      · have hrep : report = jsJoin (separator p) (numberRows 0 out) := by
          simpa using hreport.symm
        rw [hrep, jsJoin_eq_flatten]
        rfl
      · rw [numberRows_length, ← hall.length_eq, allPairs_length]
      · intro i
        rw [numberRows_getElem?]
        simp
  · intro q hq
    obtain ⟨_, m, h1, h2, h3⟩ := mem_allPairs 0 decoded q hq
    exact ⟨m, by simpa using h1, h2, h3⟩
  · intro hex
    have htotal := pushRows_total
      (fun q => remapRow p codeFrameColumns generated sourcesContent.head?.join q.1 q.2.2.1 q.2.2.2)
      (allPairs 0 decoded) [] (fun q hq => by
        obtain ⟨isPresent, hb⟩ := hex q hq
        exact remapRow_ok_of_exists p codeFrameColumns generated _ q.1 _ _ isPresent hb)
    obtain ⟨out, hout⟩ := htotal
    exact ⟨jsJoin (separator p) (numberRows 0 out), by
      simp only [writeRemapping, remappingEntries, lineLoop_eq_pushRows, hout]⟩

set_option maxRecDepth 100000 in
/-- The report for the line [[0,0,0,0],[5,0,0,10],[7,0,0,3]] followed by an
empty line and the line [[1,0,0,1]]: three entries, numbered 1 to 3. -/
theorem remapping_report_shape_witness :
    writeRemapping .posix (fun _ _ => "...".toList) "const a = 1;".toList
        [[[0, 0, 0, 0], [5, 0, 0, 10], [7, 0, 0, 3]], [], [[1, 0, 0, 1]]]
        [some "let a: number = 1".toList]
      = .ok ("## 1 Source, (1, 1) to (1, 11):\nExists in sources? Yes ✅\n\n```js\n...\n```\n\nGenerated, (1, 1) to (1, 6):\n\n```js\n...\n```\n\n________________________________________________________________________________\n\n## 2 Source, (1, 4):\nExists in sources? Yes ✅\n\n```js\n...\n```\n\nGenerated, (1, 8):\n\n```js\n...\n```\n\n________________________________________________________________________________\n\n## 3 Source, (1, 2):\nExists in sources? Yes ✅\n\n```js\n...\n```\n\nGenerated, (3, 2):\n\n```js\n...\n```".toList) ∧
    (allPairs 0 [[[0, 0, 0, 0], [5, 0, 0, 10], [7, 0, 0, 3]], [], [[1, 0, 0, 1]]]).length = 3 := by
  refine ⟨by rfl, ?_⟩
  rw [(remapping_report_shape .posix (fun _ _ => []) [] _ []).2.1]
  rfl

/-! ## Independence from the other sources -/

theorem at_eq_of_same (s t : Segment) (h : SameExceptSourceIndex s t) (i : Nat) (hi : i ≠ 1) :
    s.at i = t.at i := by
  simp [Segment.at, List.get?_eq_getElem?, h.2 i hi]

theorem remapRow_congr (p : Platform) (codeFrameColumns : Str → FrameLocation → Str)
    (generated : Str) (sources : Option Str) (g : Nat) (a a' : Segment) (e e' : Option Segment)
    (ha : SameExceptSourceIndex a a') (he : Option.Rel SameExceptSourceIndex e e') :
    remapRow p codeFrameColumns generated sources g a e
      = remapRow p codeFrameColumns generated sources g a' e' := by
  have hg : generatedPosition g a e = generatedPosition g a' e' := by
    cases he with
    | none => simp [generatedPosition, at_eq_of_same a a' ha 0 (by decide)]
    | some hb =>
      simp [generatedPosition, at_eq_of_same a a' ha 0 (by decide),
        at_eq_of_same _ _ hb 0 (by decide)]
  have hsrc : sourcePosition a e = sourcePosition a' e' := by
    cases he with
    | none =>
      simp [sourcePosition, at_eq_of_same a a' ha 2 (by decide),
        at_eq_of_same a a' ha 3 (by decide)]
    | some hb =>
      simp [sourcePosition, at_eq_of_same a a' ha 2 (by decide),
        at_eq_of_same a a' ha 3 (by decide), at_eq_of_same _ _ hb 2 (by decide),
        at_eq_of_same _ _ hb 3 (by decide)]
  simp only [remapRow, hg, hsrc]

theorem linePairs_rel (p : Platform) (codeFrameColumns : Str → FrameLocation → Str)
    (generated : Str) (sources : Option Str) (g k : Nat) (m m' : List Segment)
    (h : List.Forall₂ SameExceptSourceIndex m m') :
    List.Forall₂
      (fun q q' =>
        remapRow p codeFrameColumns generated sources q.1 q.2.2.1 q.2.2.2
          = remapRow p codeFrameColumns generated sources q'.1 q'.2.2.1 q'.2.2.2)
      (linePairs g k m) (linePairs g k m') := by
  induction m using pairsSpec.induct generalizing k m' with
  | case1 =>
    cases h
    exact List.Forall₂.nil
  | case2 a =>
    cases h with
    | cons ha hrest =>
      cases hrest
      exact List.Forall₂.cons (remapRow_congr _ _ _ _ _ _ _ _ _ ha Option.Rel.none) List.Forall₂.nil
  | case3 a b rest ih =>
    cases h with
    | cons ha hrest =>
      cases hrest with
      | cons hb hrest =>
        exact List.Forall₂.cons (remapRow_congr _ _ _ _ _ _ _ _ _ ha (Option.Rel.some hb))
          (ih (k + 1) _ hrest)

theorem lineLoop_congr (p : Platform) (codeFrameColumns : Str → FrameLocation → Str)
    (generated : Str) (sources : Option Str) (g : Nat) (decoded decoded' : List (List Segment))
    (acc : List Str)
    (h : List.Forall₂ (List.Forall₂ SameExceptSourceIndex) decoded decoded') :
    lineLoop p codeFrameColumns generated sources g decoded acc
      = lineLoop p codeFrameColumns generated sources g decoded' acc := by
  induction h generalizing g acc with
  | nil => rfl
  | cons hm _ ih =>
    simp only [lineLoop, mappingPairs_eq_pairsSpec]
    rw [pairLoop_eq_pushRows _ _ _ _ _ _ 0, pairLoop_eq_pushRows _ _ _ _ _ _ 0,
      pushRows_congr _ _ _ _ _ (linePairs_rel p codeFrameColumns generated sources g 0 _ _ hm)]
    split
    · rfl
    · exact ih _ _

/-- C9: the report of writeRemapping depends on sourcesContent only through its
first entry and does not depend on the source-file index of any segment: two
source maps whose mappings agree up to the source-file indices and whose first
sourcesContent entries agree give the same report for the same generated
code. -/
theorem writeRemapping_first_source_only (p : Platform)
    (codeFrameColumns : Str → FrameLocation → Str) (generated : Str)
    (decoded decoded' : List (List Segment)) (sourcesContent sourcesContent' : List (Option Str))
    (hm : List.Forall₂ (List.Forall₂ SameExceptSourceIndex) decoded decoded')
    (hs : sourcesContent.head? = sourcesContent'.head?) :
    writeRemapping p codeFrameColumns generated decoded sourcesContent
      = writeRemapping p codeFrameColumns generated decoded' sourcesContent' := by
  simp only [writeRemapping, remappingEntries, hs,
    lineLoop_congr p codeFrameColumns generated _ 0 decoded decoded' [] hm]
theorem same_of_fields (a b c d e f : Int) :
    SameExceptSourceIndex [a, b, c, d] [a, e, c, d] ∧
    SameExceptSourceIndex [a, b, c, d, f] [a, e, c, d, f] := by
  constructor
  · refine ⟨rfl, ?_⟩
    intro i hi
    rcases i with _ | _ | _ | _ | i <;> simp at hi ⊢
  · refine ⟨rfl, ?_⟩
    intro i hi
    rcases i with _ | _ | _ | _ | _ | i <;> simp at hi ⊢

/-- Two source maps for the same line that differ in the source-file indices
and in the second sourcesContent entry give the same report. -/
theorem writeRemapping_first_source_only_witness :
    writeRemapping .posix (fun _ _ => "...".toList) "const a = 1;".toList
        [[[0, 0, 0, 0], [5, 0, 0, 10]]] [some "let a = 1".toList, some "unused".toList]
      = writeRemapping .posix (fun _ _ => "...".toList) "const a = 1;".toList
        [[[0, 3, 0, 0], [5, 7, 0, 10]]] [some "let a = 1".toList] :=
  writeRemapping_first_source_only .posix (fun _ _ => "...".toList) "const a = 1;".toList
    [[[0, 0, 0, 0], [5, 0, 0, 10]]] [[[0, 3, 0, 0], [5, 7, 0, 10]]]
    [some "let a = 1".toList, some "unused".toList] [some "let a = 1".toList]
    (List.Forall₂.cons
      (List.Forall₂.cons (same_of_fields 0 0 0 0 3 0).1
        (List.Forall₂.cons (same_of_fields 5 0 0 10 7 0).1 List.Forall₂.nil))
      List.Forall₂.nil)
    rfl

/-! ## Hit tests on well-formed tables -/

theorem digitChar_isDigit (d : Nat) (h : d < 10) : (Nat.digitChar d).isDigit = true := by
  interval_cases d <;> rfl

theorem toDigitsCore_all_isDigit (fuel n : Nat) (ds : List Char)
    (h : ds.all Char.isDigit = true) :
    (Nat.toDigitsCore 10 fuel n ds).all Char.isDigit = true := by
  induction fuel generalizing n ds with
  | zero => simpa [Nat.toDigitsCore] using h
  | succ fuel ih =>
    have hd : (Nat.digitChar (n % 10)).isDigit = true :=
      digitChar_isDigit _ (Nat.mod_lt _ (by decide))
    have hcons : (Nat.digitChar (n % 10) :: ds).all Char.isDigit = true := by
      simp only [List.all_cons, hd, h, Bool.and_self]
    unfold Nat.toDigitsCore
    by_cases h0 : n / 10 = 0
    · simp only [h0, if_true]
      exact hcons
    · simp only [h0, if_false]
      exact ih _ _ hcons

theorem repr_all_isDigit (n : Nat) : (toString n).toList.all Char.isDigit = true := by
  have h := toDigitsCore_all_isDigit (n + 1) n [] rfl
  simpa [Nat.repr, Nat.toDigits, toString, ToString.toString] using h

theorem numberHit_num (hits : Obj Val) (key : String) (n : Int)
    (h : objGet hits key = some (.num n)) : numberHit hits key = decide (0 < n) := by
  simp [numberHit, h, Val.gtZero, Val.toNumber]

theorem branchHit_single (hits : Obj (List Nat)) (key : String) (n : Nat)
    (h : objGet hits key = some [n]) : branchHit hits key = decide (0 < n) := by
  have hstr : arrayToString [n] = (toString n).toList := by
    simp [arrayToString, List.intercalate]
  simp only [branchHit, h, hstr, stringToNumber, repr_all_isDigit, if_true, digitsValue_repr,
    Val.gtZero, Val.toNumber]
  simp

/-! ## Pinning the text helpers -/

theorem onePlus_at_missing (s : Segment) (i : Nat) (h : s[i]? = none) :
    (s.at i).onePlus = .nan := by
  simp [Segment.at, List.get?_eq_getElem?, h, Val.onePlus, Val.toNumber]

theorem minusOne_undefined : Val.minusOne .undefined = .nan ∧ Val.gtZero .undefined = false ∧
    Val.sub .undefined (.num 0) = .nan := by
  decide

theorem jsJoin_cons (sep a : Str) (rest : List Str) (h : rest ≠ []) :
    jsJoin sep (a :: rest) = a ++ sep ++ jsJoin sep rest := by
  cases rest with
  | nil => exact absurd rfl h
  | cons b rest => rfl

theorem splitGo_ne_nil (sep : Str) (k : Nat) (cur s : Str) : splitGo sep k cur s ≠ [] := by
  induction s generalizing k cur with
  | nil => cases k <;> simp [splitGo]
  | cons c t ih =>
    cases k with
    | zero =>
      unfold splitGo
      split
      · simp
      · exact ih _ _
    | succ k =>
      unfold splitGo
      exact ih _ _

theorem isPrefixOf_lineFeed (c : Char) (t : Str) :
    List.isPrefixOf ['\n'] (c :: t) = decide (c = '\n') := by
  by_cases h : c = '\n'
  · subst h; simp [List.isPrefixOf]
  · have h' : ¬ '\n' = c := fun e => h e.symm
    simp [List.isPrefixOf, h, h']

theorem jsJoin_splitGo_posix (cur s : Str) :
    jsJoin ['\n'] (splitGo ['\n'] 0 cur s) = cur ++ s := by
  induction s generalizing cur with
  | nil => simp [splitGo, jsJoin]
  | cons c t ih =>
    unfold splitGo
    rw [isPrefixOf_lineFeed]
    by_cases h : c = '\n'
    · subst h
      simp only [decide_True, if_true, List.length_singleton, Nat.sub_self]
      rw [jsJoin_cons _ _ _ (splitGo_ne_nil _ _ _ _), ih]
      simp
    · simp only [h, decide_False, Bool.false_eq_true, if_false]
      rw [ih]
      simp

theorem splitGo_posix_rows (cur s : Str) (hcur : '\n' ∉ cur) :
    ∀ row ∈ splitGo ['\n'] 0 cur s, '\n' ∉ row := by
  induction s generalizing cur with
  | nil => simpa [splitGo] using hcur
  | cons c t ih =>
    unfold splitGo
    rw [isPrefixOf_lineFeed]
    by_cases h : c = '\n'
    · subst h
      simp only [decide_True, if_true, List.length_singleton, Nat.sub_self]
      intro row hrow
      rcases List.mem_cons.mp hrow with hr | hr
      · rw [hr]; exact hcur
      · exact ih [] (by simp) row hr
    · simp only [h, decide_False, Bool.false_eq_true, if_false]
      refine ih (cur ++ [c]) ?_
      intro hmem
      rcases List.mem_append.mp hmem with h1 | h1
      · exact hcur h1
      · have hc : '\n' = c := by simpa using h1
        exact h hc.symm

/-- On POSIX the rows of `split` joined by line feeds give the text back, and no
row contains a line feed. -/
theorem jsSplit_posix (s : Str) :
    jsJoin (EOL .posix) (jsSplit (EOL .posix) s) = s ∧
    ∀ row ∈ jsSplit (EOL .posix) s, '\n' ∉ row :=
  ⟨by simpa [jsSplit, EOL] using jsJoin_splitGo_posix [] s,
    splitGo_posix_rows [] s (by simp)⟩

theorem jsSplit_win32_eval :
    jsSplit (EOL .win32) "ab\r\ncd\n\r\n".toList = ["ab".toList, "cd\n".toList, []] ∧
    jsSplit (EOL .win32) [] = [[]] ∧
    jsSplit (EOL .posix) "ab\n\ncd".toList = ["ab".toList, [], "cd".toList] := by
  decide

theorem jsTrim_framed (c d : Char) (body : Str) (hc : isTrimmable c = false)
    (hd : isTrimmable d = false) :
    jsTrim ('\n' :: c :: (body ++ [d, '\n'])) = c :: (body ++ [d]) := by
  have hn : isTrimmable '\n' = true := by decide
  simp [jsTrim, List.dropWhile, hn, hc, hd]

/-- The trimmed coverage row: the template without its first and last line
break. -/
theorem jsTrim_coverageTemplate (hit : Bool) (frame : Str) :
    jsTrim (coverageTemplate "Statement" hit frame)
      = "Statement\nHit: ".toList ++ (if hit then "Yes ✅" else "No ❌").toList
        ++ "\n\n```js\n".toList ++ frame ++ "\n```".toList := by
  have h := jsTrim_framed 'S' '`'
    ("tatement\nHit: ".toList ++ (if hit then "Yes ✅" else "No ❌").toList
      ++ "\n\n```js\n".toList ++ frame ++ "\n``".toList) (by decide) (by decide)
  have e1 : coverageTemplate "Statement" hit frame
      = '\n' :: 'S' :: (("tatement\nHit: ".toList ++ (if hit then "Yes ✅" else "No ❌").toList
          ++ "\n\n```js\n".toList ++ frame ++ "\n``".toList) ++ ['`', '\n']) := by
    simp [coverageTemplate]
  rw [e1, h]
  simp

/-- The trimmed remapping row: the template without its first and last line
break. -/
theorem jsTrim_remapTemplate (sourcePos generatedPos : FrameLocation) (isPresent : Bool)
    (sourceCodeFrame generatedCodeFrame : Str) :
    jsTrim (remapTemplate sourcePos generatedPos isPresent sourceCodeFrame generatedCodeFrame)
      = "Source, (".toList ++ (sourcePos.start.field "line").render ++ ", ".toList ++
        (sourcePos.start.field "column").render ++ ")".toList ++ rangeTail sourcePos.end_ ++
        ":\nExists in sources? ".toList ++ (if isPresent then "Yes ✅" else "No ❌").toList ++
        "\n\n```js\n".toList ++ sourceCodeFrame ++ "\n```\n\nGenerated, (".toList ++
        (generatedPos.start.field "line").render ++ ", ".toList ++
        (generatedPos.start.field "column").render ++ ")".toList ++
        rangeTail generatedPos.end_ ++ ":\n\n```js\n".toList ++ generatedCodeFrame ++
        "\n```".toList := by
  have h := jsTrim_framed 'S' '`'
    ("ource, (".toList ++ (sourcePos.start.field "line").render ++ ", ".toList ++
        (sourcePos.start.field "column").render ++ ")".toList ++ rangeTail sourcePos.end_ ++
        ":\nExists in sources? ".toList ++ (if isPresent then "Yes ✅" else "No ❌").toList ++
        "\n\n```js\n".toList ++ sourceCodeFrame ++ "\n```\n\nGenerated, (".toList ++
        (generatedPos.start.field "line").render ++ ", ".toList ++
        (generatedPos.start.field "column").render ++ ")".toList ++
        rangeTail generatedPos.end_ ++ ":\n\n```js\n".toList ++ generatedCodeFrame ++
        "\n``".toList) (by decide) (by decide)
  have e1 : remapTemplate sourcePos generatedPos isPresent sourceCodeFrame generatedCodeFrame
      = '\n' :: 'S' :: (("ource, (".toList ++ (sourcePos.start.field "line").render ++
        ", ".toList ++
        (sourcePos.start.field "column").render ++ ")".toList ++ rangeTail sourcePos.end_ ++
        ":\nExists in sources? ".toList ++ (if isPresent then "Yes ✅" else "No ❌").toList ++
        "\n\n```js\n".toList ++ sourceCodeFrame ++ "\n```\n\nGenerated, (".toList ++
        (generatedPos.start.field "line").render ++ ", ".toList ++
        (generatedPos.start.field "column").render ++ ")".toList ++
        rangeTail generatedPos.end_ ++ ":\n\n```js\n".toList ++ generatedCodeFrame ++
        "\n``".toList) ++ ['`', '\n']) := by
    simp [remapTemplate]
  rw [e1, h]
  simp

end SwcIstanbul
